import Mathlib

/-!
Verification of the md2tex conversion pipeline.

A shallow embedding, over `List Char`, of the md2tex Markdown-to-TeX
converter (`md2tex.py` and `utils/converters.py`).  Python strings are
modelled as `List Char`; `str.replace` and the specific `re` patterns used
by the source are implemented as executable character-level scanners that
mirror the semantics of the Python originals (left-to-right scanning,
non-overlapping matches, replacement text never rescanned by the same
pass, `.` never matching a newline, `^` anchored at line starts in
MULTILINE mode).  Fallible Python code (uncaught `TypeError`) is modelled
with `Except`.
-/

set_option maxRecDepth 10000

/-- Python strings, modelled as lists of characters. -/
abbrev Str := List Char

/-- Shorthand used throughout the development to write string constants. -/
def sl (s : String) : Str := s.toList

namespace PyStr

/-- `hasPfx p s` holds when `p` is a leading segment of `s`
(Python `s.startswith(p)`). -/
def hasPfx : Str → Str → Bool
  | [], _ => true
  | _ :: _, [] => false
  | a :: p, c :: s => a = c && hasPfx p s

/-- Index of the first occurrence of `p` in `s`, if any
(Python `s.find(p)` restricted to found results). -/
def findSub (p : Str) : Str → Option Nat
  | [] => if hasPfx p [] then some 0 else none
  | c :: s =>
    if hasPfx p (c :: s) then some 0
    else (findSub p s).map (· + 1)

/-- `containsSeq p s` holds when `p` occurs contiguously inside `s`
(Python `p in s`). -/
def containsSeq (p s : Str) : Bool := (findSub p s).isSome

/-- Scanning core of `replaceAll`.  The first argument is fuel: an upper
bound on the number of scan steps, decremented once per consumed
character.  Every wrapper in this development passes the length of the
scanned string, which is always sufficient because each step consumes at
least one character; the fuel-exhausted branch returns the remaining
input unchanged and is never reached from the wrappers. -/
def replaceAllGo (pat rep : Str) : Nat → Str → Str
  | _, [] => []
  | 0, s => s
  | f + 1, c :: s' =>
    if hasPfx pat (c :: s') then
      rep ++ replaceAllGo pat rep f (s'.drop (pat.length - 1))
    else
      c :: replaceAllGo pat rep f s'

/-- Python `s.replace(pat, rep)`: replace every occurrence of `pat`,
scanning left to right, never rescanning the replacement text.  An empty
pattern leaves the string unchanged (the source never uses one). -/
def replaceAll (pat rep s : Str) : Str :=
  match pat with
  | [] => s
  | _ :: _ => replaceAllGo pat rep s.length s

/-- Concatenate `n` copies of `chunk` (Python `chunk * n`). -/
def repChunk (chunk : Str) : Nat → Str
  | 0 => []
  | n + 1 => chunk ++ repChunk chunk n

/-- The whitespace characters of Python's `str.strip` and `\s`. -/
def isPySpace (c : Char) : Bool :=
  c = ' ' || c = '\t' || c = '\n' || c = '\r' || c = '\x0b' || c = '\x0c'

/-- Python `s.strip()`. -/
def stripPy (s : Str) : Str :=
  ((s.dropWhile isPySpace).reverse.dropWhile isPySpace).reverse

/-- Decimal digit test (Python `\d`). -/
def isDigitCh (c : Char) : Bool := '0' ≤ c && c ≤ '9'

/-- Word-character test (Python `\w`, ASCII view as used by the source). -/
def isWordCh (c : Char) : Bool :=
  ('a' ≤ c && c ≤ 'z') || ('A' ≤ c && c ≤ 'Z') || isDigitCh c || c = '_'

/-- All indices of `s` (including `s.length`) at which `p` starts,
in increasing order.  Used to enumerate regex backtracking candidates. -/
def occIdxs (p s : Str) : List Nat :=
  (List.range (s.length + 1)).filter fun i => hasPfx p (s.drop i)

/-- Index of the last occurrence of `p` in `s` (greedy `.*` closure). -/
def lastSub (p s : Str) : Option Nat := (occIdxs p s).getLast?

/-- Decimal digits of a natural number, most significant first. -/
def natToStrGo : Nat → Nat → Str
  | 0, _ => []
  | f + 1, n =>
    if n < 10 then [Char.ofNat (48 + n)]
    else natToStrGo f (n / 10) ++ [Char.ofNat (48 + n % 10)]

/-- Python `str(n)` for a natural number. -/
def natToStr (n : Nat) : Str := natToStrGo (n + 1) n

/-- Split at every newline, newlines removed (the lines of a string). -/
def splitOnNl : Str → List Str
  | [] => [[]]
  | '\n' :: rest => [] :: splitOnNl rest
  | c :: rest =>
    match splitOnNl rest with
    | [] => [[c]]
    | l :: ls => (c :: l) :: ls

/-- Python `re.split` on a literal pattern: the fragments of `s` between
non-overlapping left-to-right occurrences of `pat`. -/
def splitSeqGo (pat : Str) : Nat → Str → List Str
  | _, [] => [[]]
  | 0, s => [s]
  | f + 1, c :: s' =>
    if hasPfx pat (c :: s') then
      [] :: splitSeqGo pat f (s'.drop (pat.length - 1))
    else
      match splitSeqGo pat f s' with
      | [] => [[c]]
      | l :: ls => (c :: l) :: ls

/-- Python `re.split(pat, s)` for a literal, non-empty `pat`. -/
def splitSeq (pat s : Str) : List Str :=
  match pat with
  | [] => [s]
  | _ :: _ => splitSeqGo pat s.length s

/-- Python `s.split(sep)` for a single-character separator, keeping
empty fragments. -/
def splitChar (sep : Char) : Str → List Str
  | [] => [[]]
  | c :: rest =>
    if c = sep then [] :: splitChar sep rest
    else
      match splitChar sep rest with
      | [] => [[c]]
      | l :: ls => (c :: l) :: ls

/-- Python `sep.join(parts)`. -/
def joinSep (sep : Str) : List Str → Str
  | [] => []
  | [l] => l
  | l :: ls => l ++ sep ++ joinSep sep ls

/-- Python `re.sub(r"\s+", " ", s)`: collapse every whitespace run to a
single space. -/
def wsNormalizeGo : Nat → Str → Str
  | _, [] => []
  | 0, s => s
  | f + 1, c :: s' =>
    if isPySpace c then ' ' :: wsNormalizeGo f (s'.dropWhile isPySpace)
    else c :: wsNormalizeGo f s'

/-- Collapse whitespace runs to single spaces (`re.sub(r"\s+", " ", s)`). -/
def wsNormalize (s : Str) : Str := wsNormalizeGo s.length s

end PyStr

open PyStr

/-- The sentinel text substituted for a literal `@@` of the user file
(`converters.py` line 573 / 650). -/
def USERRESERVEDTOKEN : Str := sl "USERRESERVEDTOKEN"

/-- Modelled from the spec: `get_matching_brackets` lives in
`utils/helpers.py`, which is not among the sources.  Per the source
comment at `converters.py` 594-595 and the spec's description of the
Escaper, it extracts the outer open/close bracket pair of a string that
begins with an opening brace, tracking nesting depth. -/
def get_matching_brackets (s : Str) : Str :=
  go s.length 0 s
where
  go : Nat → Nat → Str → Str
  | _, _, [] => []
  | 0, _, s => s
  | f + 1, depth, c :: rest =>
    if c = '{' then c :: go f (depth + 1) rest
    else if c = '}' then
      if depth ≤ 1 then [c] else c :: go f (depth - 1) rest
    else c :: go f depth rest

namespace MDCleaner

/-- `re.sub(r"^[ \t]*\n", r"\n\n", string, flags=re.M)` — the first step
of `prepare_markdown` (`converters.py` line 572): every line consisting
solely of spaces/tabs is replaced by *two* newlines. -/
def blankLineSubGo : Nat → Bool → Str → Str
  | _, _, [] => []
  | 0, _, s => s
  | f + 1, atStart, c :: s' =>
    if atStart then
      match tryBlank (c :: s') with
      | some rest => '\n' :: '\n' :: blankLineSubGo f true rest
      | none => c :: blankLineSubGo f (c = '\n') s'
    else c :: blankLineSubGo f (c = '\n') s'
where
  /-- At a line start, match `[ \t]*\n` and return the remainder. -/
  tryBlank (s : Str) : Option Str :=
    let t := s.dropWhile fun c => c = ' ' || c = '\t'
    match t with
    | '\n' :: rest => some rest
    | _ => none

/-- Line-anchored blank-line normalization of `prepare_markdown`. -/
def blankLineSub (s : Str) : Str := blankLineSubGo s.length true s

/-- `string.replace("@@", "USERRESERVEDTOKEN")`
(`converters.py` line 573). -/
def escapeMarker (s : Str) : Str := replaceAll (sl "@@") USERRESERVEDTOKEN s

/-- `string.replace("USERRESERVEDTOKEN", "@@")`
(`converters.py` line 650). -/
def unescapeMarker (s : Str) : Str := replaceAll USERRESERVEDTOKEN (sl "@@") s

/-- The literal opener of the listing-stash pattern of
`converters.py` line 583. -/
def listingOpen : Str := sl "\\begin\x7blisting\x7d"

/-- The literal closer of the listing-stash pattern. -/
def listingClose : Str := sl "\\end\x7blisting\x7d"

/-- All matches, in order, of
`re.finditer(r"\\begin\{listing}(.|\n)*?\\end\{listing}", string)`: each
match runs from an occurrence of the opener to the earliest occurrence of
the closer after it (non-greedy body), successive matches non-overlapping. -/
def listingMatches : Nat → Str → List Str
  | 0, _ => []
  | f + 1, s =>
    match findSub listingOpen s with
    | none => []
    | some i =>
      let afterOpen := s.drop (i + listingOpen.length)
      match findSub listingClose afterOpen with
      | none => []
      | some j =>
        let m := listingOpen ++ afterOpen.take (j + listingClose.length)
        m :: listingMatches f (afterOpen.drop (j + listingClose.length))

/-- The code-stash token `@@CODETOKENn@@` of `converters.py` line 586. -/
def codeToken (n : Nat) : Str := sl "@@CODETOKEN" ++ natToStr n ++ sl "@@"

/-- The listing-stash loop of `prepare_markdown` (`converters.py`
lines 580-588): matches come from the original string, the replacement
runs on the evolving string, and each match is recorded under a fresh
numbered token. -/
def stashListings (s : Str) : Str × List (Str × Str) × Nat :=
  go (listingMatches s.length s) s [] 0
where
  go : List Str → Str → List (Str × Str) → Nat → Str × List (Str × Str) × Nat
  | [], s, dict, n => (s, dict, n)
  | code :: ms, s, dict, n =>
    go ms (replaceAll code (codeToken n) s) (dict ++ [(codeToken n, code)]) (n + 1)

/-- One match of `re.finditer(r"(\{.*?\})(\{.*\})", segment)`: starting
from index `i`, the lazy first group closes at the earliest `}` that is
immediately followed by `{`, and the greedy second group reaches the last
`}` of the segment.  Returns `(arg1, group2, continuation index)`. -/
def braceArgsAt (seg : Str) (i : Nat) : Option (Str × Str × Nat) :=
  if hasPfx (sl "\x7b") (seg.drop i) then
    firstHit ((occIdxs (sl "\x7d") (seg.drop i)).filter (0 < ·))
  else none
where
  firstHit : List Nat → Option (Str × Str × Nat)
  | [] => none
  | j :: js =>
    -- absolute close position of group 1 is `i + j`
    if hasPfx (sl "\x7b") (seg.drop (i + j + 1)) then
      match lastSub (sl "\x7d") (seg.drop (i + j + 2)) with
      | some l =>
        some ((seg.drop i).take (j + 1),
              (seg.drop (i + j + 1)).take (l + 2),
              i + j + 1 + l + 2)
      | none => firstHit js
    else firstHit js

/-- All matches of `(\{.*?\})(\{.*\})` in a segment, scanned left to
right, continuing after each match. -/
def braceArgs : Nat → Str → Nat → List (Str × Str)
  | 0, _, _ => []
  | f + 1, seg, i =>
    if seg.length ≤ i then []
    else
      match braceArgsAt seg i with
      | some (a1, g2, nxt) => (a1, g2) :: braceArgs f seg nxt
      | none => braceArgs f seg (i + 1)

/-- The `\mintinline` stash of `prepare_markdown` (`converters.py`
lines 590-607): every line of the (already listing-stashed) string that
contains `\mintinline` is split on that literal; in every later segment
each `(\{.*?\})(\{.*\})` match yields a command
`\mintinline` + first argument + outer bracket pair of the second
argument, which is recorded and replaced by a fresh numbered token. -/
def stashMintinline (s : Str) (dict : List (Str × Str)) (n : Nat) :
    Str × List (Str × Str) × Nat :=
  let lns := (splitOnNl s).filter (containsSeq (sl "\\mintinline"))
  lns.foldl
    (fun st line =>
      match splitSeq (sl "\\mintinline") line with
      | [] => st
      | _ :: segs =>
        if segs = [] then st
        else
          segs.foldl
            (fun st seg =>
              (braceArgs seg.length seg 0).foldl
                (fun st ag =>
                  let cmd := sl "\\mintinline" ++ ag.1 ++ get_matching_brackets ag.2
                  (replaceAll cmd (codeToken st.2.2) st.1,
                   st.2.1 ++ [(codeToken st.2.2, cmd)],
                   st.2.2 + 1))
                st)
            st)
    (s, dict, n)

/-- `re.sub(r"\\(?![\{\}])", r"\\textbackslash{}", string)`
(`converters.py` line 615): a backslash not immediately followed by an
opening or closing brace becomes `\textbackslash{}`. -/
def backslashSubGo : Nat → Str → Str
  | _, [] => []
  | 0, s => s
  | f + 1, c :: s' =>
    if c = '\\' then
      match s' with
      | [] => sl "\\textbackslash\x7b\x7d"
      | c₂ :: rest =>
        if c₂ = '{' || c₂ = '}' then '\\' :: c₂ :: backslashSubGo f rest
        else sl "\\textbackslash\x7b\x7d" ++ backslashSubGo f (c₂ :: rest)
    else c :: backslashSubGo f s'

/-- Backslash escaping with brace lookahead. -/
def backslashSub (s : Str) : Str := backslashSubGo s.length s

/-- The single-character replacements that close the escape chain
(`converters.py` lines 616-624, after the backslash pass), in source
order — including the duplicated `$ -> \&` replacement of line 620 and
with no tilde replacement (line 621 is commented out in the source). -/
def escTail (u : Str) : Str :=
  let u := replaceAll (sl ">") (sl "\\textgreater\x7b\x7d") u
  let u := replaceAll (sl "#") (sl "\\#") u
  let u := replaceAll (sl "$") (sl "\\$") u
  let u := replaceAll (sl "%") (sl "\\%") u
  let u := replaceAll (sl "$") (sl "\\&") u
  let u := replaceAll (sl "_") (sl "\\_") u
  let u := replaceAll (sl "&") (sl "\\&") u
  replaceAll (sl "^") (sl "\\^") u

/-- The character-escape tail of `prepare_markdown` (`converters.py`
lines 610-624), in source order: highlight-marker removal, the brace
passes, the backslash pass, and the single-character tail. -/
def escapeSpecials (s : Str) : Str :=
  let s := replaceAll (sl "\x7b==") [] s
  let s := replaceAll (sl "==\x7d") [] s
  let s := replaceAll (sl "\x7b") (sl "\\\x7b") s
  let s := replaceAll (sl "\x7d") (sl "\\\x7d") s
  let s := backslashSub s
  escTail s

/-- `MDCleaner.prepare_markdown` (`converters.py` lines 555-627):
blank-line normalization, reserved-marker escape, listing and
`\mintinline` stashing into a token table, then special-character
escaping.  Returns the updated string and the token table. -/
def prepare_markdown (s : Str) : Str × List (Str × Str) :=
  let s := blankLineSub s
  let s := escapeMarker s
  let st := stashListings s
  let st := stashMintinline st.1 st.2.1 st.2.2
  (escapeSpecials st.1, st.2.1)

/-- `re.sub(r"\n{2,}", r"\n\n", string)` (`converters.py` line 646):
every run of two or more newlines collapses to exactly two. -/
def collapseNlGo : Nat → Str → Str
  | _, [] => []
  | 0, s => s
  | f + 1, '\n' :: '\n' :: rest =>
    '\n' :: '\n' :: collapseNlGo f (rest.dropWhile (· = '\n'))
  | f + 1, c :: rest => c :: collapseNlGo f rest

/-- Newline-run collapsing of `clean_tex`. -/
def collapseNl (s : Str) : Str := collapseNlGo s.length s

/-- `re.sub(r"(\\begin\{.*?)\n{2,}", r"\1\n", string, flags=re.M)`
(`converters.py` line 647): when a line containing `\begin{` is followed
by two or more newlines, the run collapses to a single newline. -/
def beginNlRuleGo : Nat → Str → Str
  | _, [] => []
  | 0, s => s
  | f + 1, c :: s' =>
    if hasPfx (sl "\\begin\x7b") (c :: s') then
      let lineRest := ((c :: s').drop 7).takeWhile (· ≠ '\n')
      let after := ((c :: s').drop 7).dropWhile (· ≠ '\n')
      let run := after.takeWhile (· = '\n')
      if 2 ≤ run.length then
        sl "\\begin\x7b" ++ lineRest ++ '\n' ::
          beginNlRuleGo f (after.dropWhile (· = '\n'))
      else c :: beginNlRuleGo f s'
    else c :: beginNlRuleGo f s'

/-- Newline collapsing after `\begin{` lines. -/
def beginNlRule (s : Str) : Str := beginNlRuleGo s.length s

/-- `re.sub(r"\n{2,}( *\\end\{)", r"\n\1", string, flags=re.M)`
(`converters.py` line 648): a run of two or more newlines directly before
optional spaces and `\end{` collapses to a single newline. -/
def endNlRuleGo : Nat → Str → Str
  | _, [] => []
  | 0, s => s
  | f + 1, '\n' :: '\n' :: rest =>
    let after := rest.dropWhile (· = '\n')
    let sp := after.takeWhile (· = ' ')
    if hasPfx (sl "\\end\x7b") (after.drop sp.length) then
      '\n' :: sp ++ sl "\\end\x7b" ++
        endNlRuleGo f (after.drop (sp.length + 5))
    else '\n' :: endNlRuleGo f ('\n' :: rest)
  | f + 1, c :: rest => c :: endNlRuleGo f rest

/-- Newline collapsing before `\end{` lines. -/
def endNlRule (s : Str) : Str := endNlRuleGo s.length s

/-- `MDCleaner.clean_tex` (`converters.py` lines 629-652): reinject the
stashed code snippets, collapse newline runs, tighten newlines around
environment delimiters, and restore the reserved marker. -/
def clean_tex (s : Str) (codedict : List (Str × Str)) : Str :=
  let s := codedict.foldl (fun acc kv => replaceAll kv.1 kv.2 acc) s
  let s := collapseNl s
  let s := beginNlRule s
  let s := endNlRule s
  unescapeMarker s

end MDCleaner

/-- Modelled from the spec: the table of supported syntax-highlighting
language names lives in `utils/minted.py`, which is not among the
sources.  The spec (§6) specifies it only as a static registry whose
lookup failure triggers a warning and a fall back to the plain-text
default, so it is modelled as containing that default. -/
def languages : List Str := [sl "text"]

namespace MDCode

/-- All matches, in order, of ``re.finditer(r"`(.+?)`", string)``: a
backtick, then a shortest non-empty newline-free span, then the closing
backtick.  Returns the list of `(whole match, inner group)` pairs. -/
def inlineMatches : Nat → Str → List (Str × Str)
  | 0, _ => []
  | f + 1, s =>
    match s with
    | [] => []
    | '`' :: rest =>
      let inner := rest.takeWhile fun c => c ≠ '`' && c ≠ '\n'
      let after := rest.drop inner.length
      if inner ≠ [] && hasPfx (sl "`") after then
        ('`' :: inner ++ sl "`", inner) :: inlineMatches f (after.drop 1)
      else inlineMatches f rest
    | _ :: rest => inlineMatches f rest

/-- `MDCode.inline_code` (`converters.py` lines 309-325): every inline
code span found in the original string is replaced (everywhere, on the
evolving string) by a `\mintinline` command in the configured language. -/
def inline_code (s : Str) (minted_language : Str) : Str :=
  (inlineMatches s.length s).foldl
    (fun cur m =>
      replaceAll m.1
        (sl "\\mintinline\x7b" ++ minted_language ++ sl "\x7d\x7b" ++ m.2 ++ sl "\x7d")
        cur)
    s

/-- All matches, in order, of
``re.finditer(r"```((.|\n)*?)```", string)``: an opening fence, then a
shortest (possibly empty, newline-crossing) body, then the closing
fence. -/
def fencedMatches : Nat → Str → List Str
  | 0, _ => []
  | f + 1, s =>
    match findSub (sl "```") s with
    | none => []
    | some i =>
      let afterOpen := s.drop (i + 3)
      match findSub (sl "```") afterOpen with
      | none => []
      | some j =>
        (sl "```" ++ afterOpen.take (j + 3)) ::
          fencedMatches f (afterOpen.drop (j + 3))

/-- `re.sub(r"```.*?\n((.|\n)+?)```", r"\1", code)` (`converters.py`
line 363): the first fence line (through its newline) and the closing
fence are stripped, keeping the shortest non-empty body; a non-matching
string is returned unchanged. -/
def stripFencesGo : Nat → Str → Str
  | _, [] => []
  | 0, s => s
  | f + 1, c :: s' =>
    match tryAt (c :: s') with
    | some (body, rest) => body ++ stripFencesGo f rest
    | none => c :: stripFencesGo f s'
where
  /-- Match ```` ```.*?\n((.|\n)+?)``` ```` at the current position. -/
  tryAt (s : Str) : Option (Str × Str) :=
    if hasPfx (sl "```") s then
      let lineRest := (s.drop 3).takeWhile (· ≠ '\n')
      let afterNl := (s.drop 3).drop (lineRest.length + 1)
      if (s.drop 3).length ≤ lineRest.length then none
      else
        match (occIdxs (sl "```") afterNl).filter (1 ≤ ·) with
        | [] => none
        | j :: _ => some (afterNl.take j, afterNl.drop (j + 3))
    else none

/-- The listing/minted environment template of `converters.py`
lines 354-360. -/
def blockTemplate : Str :=
  sl "\n\\begin\x7blisting\x7d[H]\n\\begin\x7bminted\x7d\x7b@@LANGTOKEN@@\x7d\n@@CODETOKEN@@\n\\end\x7bminted\x7d\n@@CAPTIONTOKEN@@\n\\end\x7blisting\x7d"

/-- `re.search(r'title="([^"]+)"', info)` /
`re.search(r'hl_lines="([^"]+)"', info)`: the first occurrence of the
key whose quoted value is non-empty. -/
def quotedAttr (key info : Str) : Option Str :=
  go (occIdxs key info)
where
  go : List Nat → Option Str
  | [] => none
  | i :: is =>
    let v := (info.drop (i + key.length)).takeWhile (· ≠ '"')
    if v ≠ [] && hasPfx (sl "\"") ((info.drop (i + key.length)).drop v.length) then
      some v
    else go is

/-- The language chosen for one block (`converters.py` lines 367-381):
an override takes the configured language; otherwise the first
`[0-9A-Za-z_-]+` word of the info string, validated against the
registry with fallback `text`; absent a word, `text`. -/
def chooseLang (info minted_language : Str) (override_language : Bool) : Str :=
  if override_language then minted_language
  else
    let w := info.takeWhile fun c =>
      isDigitCh c || ('a' ≤ c && c ≤ 'z') || ('A' ≤ c && c ≤ 'Z') || c = '_' || c = '-'
    if w = [] then sl "text"
    else if languages.contains w then w else sl "text"

/-- The per-match body of the `block_code` loop (`converters.py`
lines 347-400): tokenization, info-string parsing, environment
construction and reinjection, on the evolving string. -/
def blockStep (minted_language : Str) (override_language : Bool)
    (cur : Str) (code : Str) : Str :=
  let cur := replaceAll code (sl "@@MINTEDTOKEN@@") cur
  let info :=
    stripPy (replaceAll (sl "```") [] (sl "```" ++ (code.drop 3).takeWhile (· ≠ '\n')))
  let body := stripFencesGo code.length code
  let env := replaceAll (sl "@@CODETOKEN@@") body blockTemplate
  let env := replaceAll (sl "@@LANGTOKEN@@")
    (chooseLang info minted_language override_language) env
  let env :=
    match quotedAttr (sl "title=\"") info with
    | some t => replaceAll (sl "@@CAPTIONTOKEN@@") (sl "\\caption\x7b" ++ t ++ sl "\x7d") env
    | none => replaceAll (sl "@@CAPTIONTOKEN@@\n") [] env
  let env :=
    match quotedAttr (sl "hl_lines=\"") info with
    | some h =>
      replaceAll (sl "begin\x7bminted\x7d")
        (sl "begin\x7bminted\x7d[highlightlines=\x7b" ++
          joinSep (sl ", ") (splitChar ' ' h) ++ sl "\x7d]") env
    | none => env
  replaceAll (sl "@@MINTEDTOKEN@@") env cur

/-- `MDCode.block_code` (`converters.py` lines 327-402): every fenced
block found in the original string is replaced by a listing/minted
environment built from its info string and verbatim body. -/
def block_code (s : Str) (minted_language : Str) (override_language : Bool) : Str :=
  (fencedMatches s.length s).foldl (blockStep minted_language override_language) s

end MDCode

namespace MDMath

/-- The math-stash token of the Math Shield. -/
def mathToken (n : Nat) : Str := sl "@@MATHTOKEN" ++ natToStr n ++ sl "@@"

/-- Dollar-delimited spans of the string, in order. -/
def mathMatches : Nat → Str → List Str
  | 0, _ => []
  | f + 1, s =>
    match s with
    | [] => []
    | '$' :: rest =>
      let inner := rest.takeWhile (· ≠ '$')
      let after := rest.drop inner.length
      if hasPfx (sl "$") after then
        ('$' :: inner ++ sl "$") :: mathMatches f (after.drop 1)
      else mathMatches f rest
    | _ :: rest => mathMatches f rest

/-- Modelled from the spec: `MDMath` is imported by the pipeline
(`md2tex.py` line 6) but its definition is not among the sources.  Per
the spec (§4.2, Math Shield) it locates dollar-delimited math spans
before escaping runs, replaces each with a reserved token and records
the original text in a side table. -/
def stash_math (s : Str) : Str × List (Str × Str) :=
  go (mathMatches s.length s) s [] 0
where
  go : List Str → Str → List (Str × Str) → Nat → Str × List (Str × Str)
  | [], s, dict, _ => (s, dict)
  | m :: ms, s, dict, n =>
    go ms (replaceAll m (mathToken n) s) (dict ++ [(mathToken n, m)]) (n + 1)

/-- Modelled from the spec: the restore stage of the Math Shield puts
every recorded span back verbatim. -/
def restore_math (s : Str) (mathdict : List (Str × Str)) : Str :=
  mathdict.foldl (fun acc kv => replaceAll kv.1 kv.2 acc) s

end MDMath

namespace MDQuote

/-- One `re.sub(r"X(.*)X", ...)` quote rewriting pass: at an opening
delimiter, the greedy newline-free group reaches the *last* closing
delimiter on the same line; the match is replaced by
`pre ++ group ++ post`. -/
def quoteSubGo (delim : Char) (pre post : Str) : Nat → Str → Str
  | _, [] => []
  | 0, s => s
  | f + 1, c :: s' =>
    if c = delim then
      let line := s'.takeWhile (· ≠ '\n')
      match lastSub [delim] line with
      | some j =>
        if j + 1 ≤ line.length then
          pre ++ line.take j ++ post ++ quoteSubGo delim pre post f (s'.drop (j + 1))
        else c :: quoteSubGo delim pre post f s'
      | none => c :: quoteSubGo delim pre post f s'
    else c :: quoteSubGo delim pre post f s'

/-- `MDQuote.inline_quote` (`converters.py` lines 135-150).  The second
parameter `french_quote` has no default value in the source — the
pipeline's call site omits it, which is what makes `convert` raise. -/
def inline_quote (s : Str) (french_quote : Bool) : Str :=
  if french_quote then
    let s := quoteSubGo '"' (sl "\\enquote\x7b") (sl "\x7d") s.length s
    quoteSubGo '\'' (sl "``") (sl "\"") s.length s
  else
    let s := quoteSubGo '"' (sl "``") (sl "\"") s.length s
    quoteSubGo '\'' (sl "`") (sl "'") s.length s

end MDQuote

namespace MDFrontmatter

/-- `MDFrontmatter.convert` (`converters.py` lines 660-671):
`re.sub(r"^---.*---", "", string, flags=re.MULTILINE | re.DOTALL)`.
With DOTALL the greedy `.*` crosses lines, so the single match runs from
the first line that starts with `---` (provided another `---` occurs
later) to the *last* `---` of the whole document; the remainder then
contains no further match. -/
def convertGo : Nat → Bool → Str → Str
  | _, _, [] => []
  | 0, _, s => s
  | f + 1, atStart, c :: s' =>
    if atStart && hasPfx (sl "---") (c :: s') &&
        containsSeq (sl "---") ((c :: s').drop 3) then
      match lastSub (sl "---") (c :: s') with
      | some r => (c :: s').drop (r + 3)
      | none => []
    else c :: convertGo f (c = '\n') s'

/-- Frontmatter deletion. -/
def convert (s : Str) : Str := convertGo s.length true s

end MDFrontmatter

namespace MDMedia

/-- The figure template of `converters.py` lines 704-709. -/
def figureTemplate : Str :=
  sl "\n\\begin\x7bfigure\x7d[H]\n    \\centering\n    \\includegraphics[width=.WIDTH\\textwidth]\x7bPATH\x7d\n    \\caption\x7bCAPTION\x7d\n\\end\x7bfigure\x7d"

/-- Match the width-attribute group
``(?:\\\{.*?width=``(\d+)\\%\".*?\\\})`` of the image regex at the start
of `s`: a literal `\{`, a lazy newline-free span, ``width=`` ``, digits,
`\%`, `"`, a lazy newline-free span, and `\}`.  Returns the digit group
and the length of the whole attribute block. -/
def tryAttr (s : Str) : Option (Str × Nat) :=
  if hasPfx (sl "\\\x7b") s then
    goW ((occIdxs (sl "width=``") (s.take (2 + ((s.drop 2).takeWhile (· ≠ '\n')).length))).filter (2 ≤ ·))
  else none
where
  goW : List Nat → Option (Str × Nat)
  | [] => none
  | w :: ws =>
    let afterKey := s.drop (w + 8)
    let digits := afterKey.takeWhile isDigitCh
    if digits ≠ [] && hasPfx (sl "\\%\"") (afterKey.drop digits.length) then
      let afterQuote := afterKey.drop (digits.length + 3)
      match findSub (sl "\\\x7d") (afterQuote.takeWhile (· ≠ '\n')) with
      | some k => some (digits, w + 8 + digits.length + 3 + k + 2)
      | none => goW ws
    else goW ws

/-- Match the whole image regex
``!\[(.*?)\]\((.*?)\)(?:\\\{...\})`` at the start of `s`: note that the
attribute group is *not* optional in the source pattern.  Returns
`(whole match, alt text, path, width digits, remainder)`. -/
def tryImage (s : Str) : Option (Str × Str × Str × Str × Str) :=
  if hasPfx (sl "![") s then
    goAlt (occIdxs (sl "](") ((s.drop 2).takeWhile (· ≠ '\n')))
  else none
where
  goAlt : List Nat → Option (Str × Str × Str × Str × Str)
  | [] => none
  | a :: as_ =>
    let alt := (s.drop 2).take a
    let afterAlt := s.drop (2 + a + 2)
    match goPath afterAlt (occIdxs (sl ")") (afterAlt.takeWhile (· ≠ '\n'))) with
    | some (path, width, len) =>
      some (s.take (2 + a + 2 + len), alt, path, width, s.drop (2 + a + 2 + len))
    | none => goAlt as_
  goPath (t : Str) : List Nat → Option (Str × Str × Nat)
  | [] => none
  | p :: ps =>
    match tryAttr (t.drop (p + 1)) with
    | some (width, alen) => some (t.take p, width, p + 1 + alen)
    | none => goPath t ps

/-- All image matches of the original string, in order. -/
def imageMatches : Nat → Str → List (Str × Str × Str × Str)
  | 0, _ => []
  | f + 1, s =>
    match s with
    | [] => []
    | c :: rest =>
      match tryImage (c :: rest) with
      | some (m, alt, path, width, rem) => (m, alt, path, width) :: imageMatches f rem
      | none => imageMatches f rest

/-- `MDMedia.image` (`converters.py` lines 679-715): each match is
replaced by the figure environment; the `WIDTH` slot receives the
matched percentage (the `default_width = "85"` fallback of line 702 is
kept, although the mandatory attribute group makes it unreachable). -/
def image (s : Str) : Str :=
  (imageMatches s.length s).foldl
    (fun cur m =>
      let width := if m.2.2.2 ≠ [] then m.2.2.2 else sl "85"
      let env := replaceAll (sl "CAPTION") m.2.1 figureTemplate
      let env := replaceAll (sl "PATH") m.2.2.1 env
      let env := replaceAll (sl "WIDTH") width env
      replaceAll m.1 env cur)
    s

end MDMedia

namespace MDHeader

/-- Try one header pattern `^\s*(\\#){k}(?!\\#?) *(.*?)$` (or
`{k,}` when `orMore` is set) at a line start (`converters.py`
lines 59-84): leading whitespace (newline-crossing, since `\s` matches
newlines), a run of `\#` pairs whose length must equal `k` (at least `k`
for the greedy `{k,}` form), a lookahead rejecting a following
backslash, then spaces and the rest of the line as the title.  Returns
the title and the remainder after the match (the line's newline is not
consumed, `$` being zero-width). -/
def tryHeader (k : Nat) (orMore : Bool) (s : Str) : Option (Str × Str) :=
  let afterWs := s.dropWhile isPySpace
  let m := hashReps afterWs
  let afterReps := afterWs.drop (2 * m)
  if (if orMore then decide (k ≤ m) else decide (m = k)) &&
      1 ≤ m && noBackslash afterReps then
    let afterSp := afterReps.dropWhile (· = ' ')
    some (afterSp.takeWhile (· ≠ '\n'), afterSp.dropWhile (· ≠ '\n'))
  else none
where
  /-- Length of the maximal run of literal `\#` pairs. -/
  hashReps : Str → Nat
  | '\\' :: '#' :: rest => hashReps rest + 1
  | _ => 0
  /-- The `(?!\\#?)` lookahead: fails exactly when the next character is
  a backslash. -/
  noBackslash : Str → Bool
  | '\\' :: _ => false
  | _ => true

/-- One header substitution pass
(`re.sub(pattern, replacement, string, flags=re.M)`), the replacement
being a function of the captured title. -/
def headerSubGo (k : Nat) (orMore : Bool) (repl : Str → Str) :
    Nat → Bool → Str → Str
  | _, _, [] => []
  | 0, _, s => s
  | f + 1, atStart, c :: s' =>
    if atStart then
      match tryHeader k orMore (c :: s') with
      | some (title, rem) => repl title ++ headerSubGo k orMore repl f false rem
      | none => c :: headerSubGo k orMore repl f (c = '\n') s'
    else c :: headerSubGo k orMore repl f (c = '\n') s'

/-- A header substitution pass over a whole string. -/
def headerSub (k : Nat) (orMore : Bool) (repl : Str → Str) (s : Str) : Str :=
  headerSubGo k orMore repl s.length true s

/-- One entry of a header table: marker count, whether the count is a
minimum (`{k,}`), and the replacement template. -/
abbrev HeaderRule := Nat × Bool × (Str → Str)

/-- `MDHeader.book_numbered` (`converters.py` lines 59-65). -/
def book_numbered : List HeaderRule :=
  [ (1, false, fun t => sl "\\chapter\x7b" ++ t ++ sl "\x7d\n"),
    (2, false, fun t => sl "\\section\x7b" ++ t ++ sl "\x7d\n"),
    (3, false, fun t => sl "\\subsection\x7b" ++ t ++ sl "\x7d\n"),
    (4, false, fun t => sl "\\subsubsection\x7b" ++ t ++ sl "\x7d\n"),
    (5, true, fun t => sl "\n\n\\textbf\x7b" ++ t ++ sl "\x7d\n\n") ]

/-- `MDHeader.book_unnumbered` (`converters.py` lines 66-72). -/
def book_unnumbered : List HeaderRule :=
  [ (1, false, fun t =>
      sl "\\chapter*\x7b" ++ t ++ sl "\x7d\n\\addcontentsline\x7btoc\x7d\x7bchapter\x7d\x7b" ++ t ++ sl "\x7d\n"),
    (2, false, fun t =>
      sl "\\section*\x7b" ++ t ++ sl "\x7d\n\\addcontentsline\x7btoc\x7d\x7bsection\x7d\x7b" ++ t ++ sl "\x7d\n"),
    (3, false, fun t =>
      sl "\\subsection*\x7b" ++ t ++ sl "\x7d\n\\addcontentsline\x7btoc\x7d\x7bsubsection\x7d\x7b" ++ t ++ sl "\x7d\n"),
    (4, false, fun t =>
      sl "\\subsubsection*\x7b" ++ t ++ sl "\x7d\n\\addcontentsline\x7btoc\x7d\x7bsubsubsection\x7d\x7b" ++ t ++ sl "\x7d\n"),
    (5, true, fun t => sl "\n\n\\noindent\x7b\x7d\\textbf\x7b" ++ t ++ sl "\x7d\n\n") ]

/-- `MDHeader.article_numbered` (`converters.py` lines 73-78). -/
def article_numbered : List HeaderRule :=
  [ (1, false, fun t => sl "\\section\x7b" ++ t ++ sl "\x7d\n"),
    (2, false, fun t => sl "\\subsection\x7b" ++ t ++ sl "\x7d\n"),
    (3, false, fun t => sl "\\subsubsection\x7b" ++ t ++ sl "\x7d\n"),
    (4, true, fun t => sl "\n\n\\noindent\x7b\x7d\\textbf\x7b" ++ t ++ sl "\x7d\n\n") ]

/-- `MDHeader.article_unnumbered` (`converters.py` lines 79-84). -/
def article_unnumbered : List HeaderRule :=
  [ (1, false, fun t =>
      sl "\\section*\x7b" ++ t ++ sl "\x7d\n\\addcontentsline\x7btoc\x7d\x7bsection\x7d\x7b" ++ t ++ sl "\x7d\n"),
    (2, false, fun t =>
      sl "\\section*\x7b" ++ t ++ sl "\x7d\n\\addcontentsline\x7btoc\x7d\x7bsubsection\x7d\x7b" ++ t ++ sl "\x7d\n"),
    (3, false, fun t =>
      sl "\\subsection*\x7b" ++ t ++ sl "\x7d\n\\addcontentsline\x7btoc\x7d\x7bsubsubsection\x7d\x7b" ++ t ++ sl "\x7d\n"),
    (4, true, fun t => sl "\n\n\\noindent\x7b\x7d\\textbf\x7b" ++ t ++ sl "\x7d\n\n") ]

/-- `MDHeader.convert` (`converters.py` lines 86-107): select one of the
four tables from the two flags and apply its substitutions in order. -/
def convert (s : Str) (unnumbered : Bool) (document_class : Str) : Str :=
  let table :=
    if unnumbered then
      if document_class = sl "article" then article_unnumbered else book_unnumbered
    else
      if document_class = sl "article" then article_numbered else book_numbered
  table.foldl (fun acc r => headerSub r.1 r.2.1 r.2.2 acc) s

end MDHeader

namespace MDList

/-- The nested-environment loop shared by `MDList.unordered_l` and
`MDList.ordered_l` (`converters.py` lines 179-193 and 223-240),
parameterized by the environment-opening chunk, the environment-closing
chunk, and the per-item preprocessing (`ordered_l` strips the numbering
from `li[0]` at the top of the loop; `unordered_l` does not).  Besides
the built text it returns how many environment openers and how many
environment closers were emitted (the closers include the
`"\\end{...}" * prev` tail of lines 193/240). -/
def buildNested (beginChunk endChunk itemChunk : Str) (prep : Str → Str) :
    Nat → List (Str × Nat) → Str × Nat × Nat
  | prev, [] => (repChunk endChunk prev, 0, prev)
  | prev, (t, l) :: rest =>
    let t := prep t
    let (s, b, e) := buildNested beginChunk endChunk itemChunk prep l rest
    if prev < l then
      (repChunk beginChunk (l - prev) ++ t ++ '\n' :: s, (l - prev) + b, e)
    else if l < prev then
      (repChunk endChunk (prev - l) ++ itemChunk ++ t ++ '\n' :: s, b, (prev - l) + e)
    else
      (itemChunk ++ t ++ '\n' :: s, b, e)

/-- `re.sub(r"^[ \t]*\d+\. *", "", li)` (`converters.py` line 227):
strip an anchored leading `indentation digits dot spaces` prefix. -/
def stripNumbering (t : Str) : Str :=
  let afterWs := t.dropWhile fun c => c = ' ' || c = '\t'
  let digits := afterWs.takeWhile isDigitCh
  if digits ≠ [] && hasPfx (sl ".") (afterWs.drop digits.length) then
    (afterWs.drop (digits.length + 1)).dropWhile (· = ' ')
  else t

/-- The `itemize` nesting loop of `MDList.unordered_l`
(`converters.py` lines 179-193), from the processed
`(item text, indentation level)` pairs. -/
def unorderedItems (ls : List (Str × Nat)) : Str × Nat × Nat :=
  buildNested (sl "\\begin\x7bitemize\x7d \n \\item ") (sl "\\end\x7bitemize\x7d\n")
    (sl "\\item ") id 0 ls

/-- The `enumerate` nesting loop of `MDList.ordered_l`
(`converters.py` lines 223-240). -/
def orderedItems (ls : List (Str × Nat)) : Str × Nat × Nat :=
  buildNested (sl "\\begin\x7benumerate\x7d \n \\item ") (sl "\\end\x7benumerate\x7d\n")
    (sl "\\item ") stripNumbering 0 ls

end MDList

namespace MDReference

/-- Match the footnote-pointer pattern `\[\\\^\d+\](?![ \t]*:)` at the
start of `s` (`converters.py` line 430): a literal `[\^`, digits, `]`,
with a lookahead rejecting a following run of spaces/tabs ending in a
colon.  Returns the matched text and the remainder. -/
def tryPointer (s : Str) : Option (Str × Str) :=
  match s with
  | '[' :: '\\' :: '^' :: rest =>
    let digits := rest.takeWhile isDigitCh
    if digits ≠ [] && hasPfx (sl "]") (rest.drop digits.length) then
      let after := rest.drop (digits.length + 1)
      let t := after.dropWhile fun c => c = ' ' || c = '\t'
      if hasPfx (sl ":") t then none
      else some (sl "[\\^" ++ digits ++ sl "]", after)
    else none
  | _ => none

/-- All footnote-pointer matches of the string, in order. -/
def pointerMatches : Nat → Str → List Str
  | 0, _ => []
  | f + 1, s =>
    match s with
    | [] => []
    | c :: rest =>
      match tryPointer (c :: rest) with
      | some (m, rem) => m :: pointerMatches f rem
      | none => pointerMatches f rest

/-- `re.search(r"\d+", pointer)[0]` (`converters.py` line 434): the
first digit run of the pointer text. -/
def extractNum (ptr : Str) : Str :=
  (ptr.dropWhile (fun c => !isDigitCh c)).takeWhile isDigitCh

/-- `re.search(r"^(\[\\\^" + num + r"\]:) *(.+\n?)", string, flags=re.M)`
(`converters.py` lines 435-438): the first line-anchored footnote
definition for label `num`; the body group needs at least one
non-newline character and greedily includes the line's newline.
Returns the whole match and its first group. -/
def searchFnDefGo (pat : Str) : Nat → Bool → Str → Option (Str × Str)
  | _, _, [] => none
  | 0, _, _ => none
  | f + 1, atStart, c :: s' =>
    if atStart && hasPfx pat (c :: s') then
      let afterPat := (c :: s').drop pat.length
      let sp := afterPat.takeWhile (· = ' ')
      let body := (afterPat.drop sp.length).takeWhile (· ≠ '\n')
      if body ≠ [] then
        let tailNl :=
          if hasPfx (sl "\n") (afterPat.drop (sp.length + body.length)) then sl "\n" else []
        some (pat ++ sp ++ body ++ tailNl, pat)
      else searchFnDefGo pat f (c = '\n') s'
    else searchFnDefGo pat f (c = '\n') s'

/-- The footnote-definition search for a given label. -/
def searchFnDef (num s : Str) : Option (Str × Str) :=
  searchFnDefGo (sl "[\\^" ++ num ++ sl "]:") s.length true s

/-- The final pointer sweep `re.sub(r"\[\\\^\d+\](?![ \t]*:)", "", string)`
(`converters.py` line 457). -/
def sweepPointersGo : Nat → Str → Str
  | _, [] => []
  | 0, s => s
  | f + 1, c :: s' =>
    match tryPointer (c :: s') with
    | some (_, rem) => sweepPointersGo f rem
    | none => c :: sweepPointersGo f s'

/-- The final definition sweep
`re.sub(r"(\[\\\^\d+\]:)(.+\n?)*", "", string)` (`converters.py`
line 458): a bracketed label with colon, then a greedy run of non-empty
lines (each with its newline). -/
def sweepDefsGo : Nat → Str → Str
  | _, [] => []
  | 0, s => s
  | f + 1, c :: s' =>
    match tryDef (c :: s') with
    | some rem => sweepDefsGo f rem
    | none => c :: sweepDefsGo f s'
where
  /-- Match `(\[\\\^\d+\]:)` at the current position and consume the
  following `(.+\n?)*` run. -/
  tryDef (s : Str) : Option Str :=
    match s with
    | '[' :: '\\' :: '^' :: rest =>
      let digits := rest.takeWhile isDigitCh
      if digits ≠ [] && hasPfx (sl "]:") (rest.drop digits.length) then
        some (eatLines s.length (rest.drop (digits.length + 2)))
      else none
    | _ => none
  /-- Consume the greedy `(.+\n?)*` run: non-empty lines, each with its
  trailing newline when present. -/
  eatLines : Nat → Str → Str
  | 0, s => s
  | f + 1, s =>
    match s with
    | [] => []
    | '\n' :: _ => s
    | _ =>
      let line := s.takeWhile (· ≠ '\n')
      let after := s.drop line.length
      if hasPfx (sl "\n") after then eatLines f (after.drop 1) else after.drop 1

/-- `MDReference.footnote` (`converters.py` lines 415-460): for each
pointer found in the original string, look up its definition in the
evolving string; a non-empty body yields a `\footnote{...}` replacing
the pointer (and the definition is deleted), an empty body deletes both,
a missing definition raises `TypeError`, silently caught.  Two final
sweeps delete every remaining pointer and definition. -/
def footnote (s : Str) : Str :=
  let s :=
    (pointerMatches s.length s).foldl
      (fun cur ptr =>
        match searchFnDef (extractNum ptr) cur with
        | none => cur
        | some (m0, g1) =>
          let texnote := stripPy (wsNormalize (replaceAll g1 [] m0))
          if texnote ≠ [] then
            let tex := sl "\\footnote\x7b" ++ texnote ++ sl "\x7d"
            let cur := replaceAll m0 [] cur
            replaceAll ptr tex cur
          else
            let cur := replaceAll ptr [] cur
            replaceAll m0 [] cur)
      s
  let s := sweepPointersGo s.length s
  sweepDefsGo s.length s

/-- Match the citation pattern `\[(-?@[^\]]+)\](?!\()` at the start of
`s` (`converters.py` line 516).  Returns the whole match, the bracket
content, and the remainder. -/
def tryCitation (s : Str) : Option (Str × Str × Str) :=
  match s with
  | '[' :: rest =>
    let core := if hasPfx (sl "-@") rest then 2 else if hasPfx (sl "@") rest then 1 else 0
    if core = 0 then none
    else
      let inner := rest.take core ++ (rest.drop core).takeWhile (· ≠ ']')
      if (rest.drop core).takeWhile (· ≠ ']') = [] then none
      else
        let after := rest.drop inner.length
        if hasPfx (sl "]") after && !hasPfx (sl "](") after then
          some (sl "[" ++ inner ++ sl "]", inner, after.drop 1)
        else none
  | _ => none

/-- All citation matches of the string, in order. -/
def citationMatches : Nat → Str → List (Str × Str)
  | 0, _ => []
  | f + 1, s =>
    match s with
    | [] => []
    | c :: rest =>
      match tryCitation (c :: rest) with
      | some (m, g, rem) => (m, g) :: citationMatches f rem
      | none => citationMatches f rest

/-- `re.match(r"(-?@[^, ]+)(, (?:p\. )?(\d+\b(?!-))|, (?:pp\. )?(\d+-\d+))?", g)`
(`converters.py` line 526): the citation key, and the optional locator
group — `none` for no locator, `some (false, n)` for the single-page
alternative (group 3), `some (true, r)` for the page-range alternative
(group 4).  A key of zero length after the sigil fails the match
altogether (`None` in Python). -/
def parseCitation (g : Str) : Option (Str × Option (Bool × Str)) :=
  let sig := if hasPfx (sl "-@") g then 2 else if hasPfx (sl "@") g then 1 else 0
  if sig = 0 then none
  else
    let keyrest := (g.drop sig).takeWhile fun c => c ≠ ',' && c ≠ ' '
    if keyrest = [] then none
    else
      let key := g.take sig ++ keyrest
      let after := g.drop key.length
      if hasPfx (sl ", ") after then
        let loc := after.drop 2
        match alt1 loc with
        | some n => some (key, some (false, n))
        | none =>
          match alt2 loc with
          | some r => some (key, some (true, r))
          | none => some (key, none)
      else some (key, none)
where
  /-- `(?:p\. )?(\d+\b(?!-))`: optional `p. `, digits, word boundary,
  no following dash. -/
  alt1 (loc : Str) : Option Str :=
    let t := if hasPfx (sl "p. ") loc then loc.drop 3 else loc
    let d := t.takeWhile isDigitCh
    if d = [] then none
    else
      match (t.drop d.length).head? with
      | none => some d
      | some c => if isWordCh c || c = '-' then none else some d
  /-- `(?:pp\. )?(\d+-\d+)`: optional `pp. `, a digit range. -/
  alt2 (loc : Str) : Option Str :=
    let t := if hasPfx (sl "pp. ") loc then loc.drop 4 else loc
    let d1 := t.takeWhile isDigitCh
    if d1 = [] then none
    else
      let t2 := t.drop d1.length
      if hasPfx (sl "-") t2 then
        let d2 := (t2.drop 1).takeWhile isDigitCh
        if d2 = [] then none else some (d1 ++ sl "-" ++ d2)
      else none

end MDReference

/-- An uncaught Python exception surfaced by the embedding. -/
inductive PyErr
  | typeError
deriving DecidableEq, Repr

namespace MDReference

/-- The replacement text built for one citation match (`converters.py`
lines 518-538): the multi-reference branch joins the keys and strips the
sigils; the single branch renders the locator and dispatches on the
suppress-author marker.  A failing inner match is Python's uncaught
`TypeError` (`ref_components[1]` on `None`). -/
def citationText (g : Str) : Except PyErr Str :=
  if containsSeq (sl ";") g then
    Except.ok (replaceAll (sl "@") []
      (sl "\\parencite\x7b" ++ replaceAll (sl ";") (sl ",") g ++ sl "\x7d"))
  else
    match parseCitation g with
    | none => Except.error PyErr.typeError
    | some (key, loc) =>
      let texLoc :=
        match loc with
        | none => []
        | some (false, n) => sl "[p. " ++ n ++ sl "]"
        | some (true, r) => sl "[pp. " ++ r ++ sl "]"
      if hasPfx (sl "-") key then
        Except.ok (sl " \\parencite*" ++ texLoc ++ sl "\x7b" ++ key.drop 2 ++ sl "\x7d")
      else
        Except.ok (sl " \\parencite" ++ texLoc ++ sl "\x7b" ++ key.drop 1 ++ sl "\x7d")

/-- `MDReference.citation` (`converters.py` lines 484-542): every
citation match of the original string is replaced, on the evolving
string, by its biblatex rendering; a malformed single citation raises. -/
def citation (s : Str) : Except PyErr Str :=
  (citationMatches s.length s).foldlM
    (fun cur m => do
      let tex ← citationText m.2
      pure (replaceAll m.1 tex cur))
    s

end MDReference

/-- The pure conversion pipeline `convert` of `md2tex.py`
(lines 127-172) up to the point where it necessarily raises: the call
`MDQuote.inline_quote(data)` at line 157 omits the required positional
argument `french_quote` of `MDQuote.inline_quote`
(`converters.py` line 136), so every invocation raises `TypeError`
there, before the remaining stages can run.  The `Warnings` emitted for
an unsupported language (line 145) are a side channel that does not
affect the returned value. -/
def convert (data : Str) (unnumbered : Bool) (document_class : Str)
    (minted_language : Str) (override_language : Bool) : Except PyErr Str :=
  let lang := minted_language
  let data := MDCode.block_code data lang override_language
  let data := MDCode.inline_code data lang
  let st := MDMath.stash_math data
  let st2 := MDCleaner.prepare_markdown st.1
  let data := MDFrontmatter.convert st2.1
  let _unreached := (MDMedia.image data, unnumbered, document_class)
  Except.error PyErr.typeError

/-- The code-shielding composition named by the round-trip property:
block-code conversion, then the escaping/stash pass, then the
cleanup/reinjection pass, with the default language configuration.  (In
the full `convert` the stages in between operate on the stash token,
which none of them rewrites.) -/
def codeShieldPipeline (md : Str) : Str :=
  let s := MDCode.block_code md (sl "text") false
  let st := MDCleaner.prepare_markdown s
  MDCleaner.clean_tex st.1 st.2

namespace MDCleaner

/-- Whether some line of `s` consists solely of spaces/tabs (and is
terminated by a newline) — the strings on which the blank-line
normalization of `prepare_markdown` fires. -/
def hasBlankLine (s : Str) : Bool := go true s
where
  go : Bool → Str → Bool
  | _, [] => false
  | atStart, c :: s' =>
    (atStart && (blankLineSubGo.tryBlank (c :: s')).isSome) || go (c = '\n') s'

/-- The per-character escape map actually computed by the
special-character passes of `prepare_markdown` (`converters.py`
lines 610-624) on text free of the shielding triggers: the composite of
the brace passes, the backslash pass with its brace lookahead, and the
single-character passes — including the consequences of the duplicated
`$`-replacement of line 620 (a dollar ends up as `\\\&`) and of the
commented-out tilde line 621 (a tilde is left unchanged). -/
def escFun (c : Char) : Str :=
  if c = '{' then sl "\\\x7b"
  else if c = '}' then sl "\\\x7d"
  else if c = '\\' then sl "\\textbackslash\x7b\x7d"
  else if c = '>' then sl "\\textgreater\x7b\x7d"
  else if c = '#' then sl "\\#"
  else if c = '$' then sl "\\\\\\&"
  else if c = '%' then sl "\\%"
  else if c = '_' then sl "\\_"
  else if c = '&' then sl "\\&"
  else if c = '^' then sl "\\^"
  else [c]

/-- The per-character escape map as the specification documents it
(spec §4.3/§8: brace pair, backslash, angle bracket, hash, currency and
percent sigils, tilde, underscore, ampersand, caret, each replaced by
its TeX escape).  This definition follows the spec's words, not the
source, and exists only to compare the claim against the
implementation. -/
def specEscapeChar (c : Char) : Str :=
  if c = '{' then sl "\\\x7b"
  else if c = '}' then sl "\\\x7d"
  else if c = '\\' then sl "\\textbackslash\x7b\x7d"
  else if c = '>' then sl "\\textgreater\x7b\x7d"
  else if c = '#' then sl "\\#"
  else if c = '$' then sl "\\$"
  else if c = '%' then sl "\\%"
  else if c = '~' then sl "\\~"
  else if c = '_' then sl "\\_"
  else if c = '&' then sl "\\&"
  else if c = '^' then sl "\\^"
  else [c]

/-- The map `{ -> \{, } -> \}` of `converters.py` lines 612-613, seen
per character. -/
def braceMap (c : Char) : Str :=
  if c = '{' then sl "\\\x7b" else if c = '}' then sl "\\\x7d" else [c]

/-- The composite of the brace passes and the backslash pass, seen per
character. -/
def braceBackslashMap (c : Char) : Str :=
  if c = '{' then sl "\\\x7b"
  else if c = '}' then sl "\\\x7d"
  else if c = '\\' then sl "\\textbackslash\x7b\x7d"
  else [c]

/-- One single-character replacement pass, seen per character. -/
def charRep (d : Char) (rep : Str) (c : Char) : Str :=
  if c = d then rep else [c]

end MDCleaner

namespace MDHeader

/-- `n` copies of the escaped heading marker `\#` — the form in which a
run of `n` Markdown `#` markers reaches `MDHeader.convert` after the
escaping pass. -/
def hashMarks (n : Nat) : Str := repChunk (sl "\\#") n

end MDHeader

section Sanity

example : sl "ab" = ['a', 'b'] := by decide

example : PyStr.replaceAll (sl "@@") (sl "X") (sl "a@@b@@@") = sl "aXbX@" := by decide

example : PyStr.containsSeq (sl "---") (sl "ab--c") = false := by decide

example : PyStr.stripPy (sl "  a b ") = sl "a b" := by decide

-- C5 traces
example :
    MDReference.footnote (sl "text[\\^1]\n\n[\\^1]: note") =
      sl "text\\footnote\x7bnote\x7d\n\n" := by decide

example : MDReference.footnote (sl "text[\\^2]") = sl "text" := by decide

example : MDReference.footnote (sl "[\\^3]: orphan\n") = sl "" := by decide

-- C6 traces
example :
    MDReference.citation (sl "[@doe1999]") =
      Except.ok (sl " \\parencite\x7bdoe1999\x7d") := rfl

example :
    MDReference.citation (sl "[@doe1999, 30]") =
      Except.ok (sl " \\parencite[p. 30]\x7bdoe1999\x7d") := rfl

example :
    MDReference.citation (sl "[@doe1999, 30-35]") =
      Except.ok (sl " \\parencite[pp. 30-35]\x7bdoe1999\x7d") := rfl

example :
    MDReference.citation (sl "[-@doe1999]") =
      Except.ok (sl " \\parencite*\x7bdoe1999\x7d") := rfl

example :
    MDReference.citation (sl "[@doe1999; @smith]") =
      Except.ok (sl "\\parencite\x7bdoe1999, smith\x7d") := rfl

-- C3 traces
example :
    MDCode.block_code (sl "```\na\n \nb\n```") (sl "text") false =
      sl "\n\\begin\x7blisting\x7d[H]\n\\begin\x7bminted\x7d\x7btext\x7d\na\n \nb\n\n\\end\x7bminted\x7d\n\\end\x7blisting\x7d" := by decide

example :
    (fun st => MDCleaner.clean_tex st.1 st.2)
      (MDCleaner.prepare_markdown
        (MDCode.block_code (sl "```\na\n \nb\n```") (sl "text") false)) =
      sl "\n\n\\begin\x7blisting\x7d[H]\n\\begin\x7bminted\x7d\x7btext\x7d\na\n\nb\n\\end\x7bminted\x7d\n\\end\x7blisting\x7d" := by decide

-- C7 traces
example : MDMedia.image (sl "![alt](path.jpg)") = sl "![alt](path.jpg)" := by decide

example :
    MDMedia.image (sl "![alt](path.jpg)\\\x7b width=50\\% \\\x7d") =
      sl "![alt](path.jpg)\\\x7b width=50\\% \\\x7d" := by decide

-- C8 traces
example :
    MDFrontmatter.convert (sl "hello\n---\nworld\n---\nbye") = sl "hello\n\nbye" := by
  decide

example : MDFrontmatter.convert (sl "---\ntitle: x\n---\nbody") = sl "\nbody" := by decide

-- C10 traces
example :
    MDHeader.convert (sl "\\# Title") false (sl "article") =
      sl "\\section\x7bTitle\x7d\n" := by decide

example :
    MDHeader.convert (sl "\\#\\#\\#\\#\\# Title") false (sl "article") =
      sl "\n\n\\noindent\x7b\x7d\\textbf\x7bTitle\x7d\n\n" := by decide

-- C2 trace
example :
    (MDCleaner.prepare_markdown (sl "a{b}c\\d>e#f$g%h~i_j&k^l")).1 =
      sl "a\\\x7bb\\\x7dc\\textbackslash\x7b\x7dd\\textgreater\x7b\x7de\\#f\\\\\\&g\\%h~i\\_j\\&k\\^l" := by
  decide

example : (MDCleaner.prepare_markdown (sl "a{b}c\\d>e#f$g%h~i_j&k^l")).2 = [] := by decide

-- C9 traces
example :
    MDCleaner.unescapeMarker (MDCleaner.escapeMarker (sl "x@@y@z")) = sl "x@@y@z" := by
  decide

example :
    MDCleaner.unescapeMarker (MDCleaner.escapeMarker (sl "USERRESERVEDTOKEN")) =
      sl "@@" := by decide

-- C4 trace
example :
    MDList.unorderedItems [(sl "a", 0), (sl "b", 1), (sl "c", 0)] =
      (sl "\\item a\n\\begin\x7bitemize\x7d \n \\item b\n\\end\x7bitemize\x7d\n\\item c\n",
        1, 1) := by decide

-- C1 trace
example :
    convert (sl "hello") false (sl "article") (sl "text") false =
      Except.error PyErr.typeError := rfl

end Sanity

/-! ## Generic scanning lemmas -/

namespace PyStr

lemma hasPfx_cons {a c : Char} {p s : Str} :
    hasPfx (a :: p) (c :: s) = true ↔ a = c ∧ hasPfx p s = true := by
  simp [hasPfx]

lemma hasPfx_refl_append (z w : Str) : hasPfx z (z ++ w) = true := by
  induction z with
  | nil => rfl
  | cons a p ih => simp [hasPfx, ih]

lemma hasPfx_mono_append {z a : Str} (b : Str) (h : hasPfx z a = true) :
    hasPfx z (a ++ b) = true := by
  induction z generalizing a with
  | nil => rfl
  | cons d z' ih =>
    cases a with
    | nil => simp [hasPfx] at h
    | cons c a' =>
      rw [List.cons_append]
      rw [hasPfx_cons] at h ⊢
      exact ⟨h.1, ih h.2⟩

lemma hasPfx_of_append_short {z a b : Str} (h : hasPfx z (a ++ b) = true)
    (hle : z.length ≤ a.length) : hasPfx z a = true := by
  induction z generalizing a with
  | nil => rfl
  | cons d z' ih =>
    cases a with
    | nil => simp at hle
    | cons c a' =>
      rw [List.cons_append, hasPfx_cons] at h
      rw [hasPfx_cons]
      exact ⟨h.1, ih h.2 (by simpa using hle)⟩

lemma containsSeq_nil_pat (s : Str) : containsSeq [] s = true := by
  cases s <;> rfl

lemma containsSeq_ne_nil {p s : Str} (h : containsSeq p s = false) : p ≠ [] := by
  intro hp
  rw [hp, containsSeq_nil_pat] at h
  exact absurd h (by simp)

lemma containsSeq_of_hasPfx {p s : Str} (h : hasPfx p s = true) :
    containsSeq p s = true := by
  cases s with
  | nil => cases p with
    | nil => rfl
    | cons a q => simp [hasPfx] at h
  | cons c s' => simp [containsSeq, findSub, h]

lemma containsSeq_cons (p : Str) (c : Char) (s' : Str) :
    containsSeq p (c :: s') = (hasPfx p (c :: s') || containsSeq p s') := by
  by_cases hp : hasPfx p (c :: s') = true
  · simp [containsSeq, findSub, hp]
  · cases hq : findSub p s' <;>
      simp [containsSeq, findSub, hp, hq]

lemma containsSeq_cons_of {p : Str} (c : Char) {s' : Str}
    (h : containsSeq p s' = true) : containsSeq p (c :: s') = true := by
  simp [containsSeq_cons, h]

lemma containsSeq_cons_elim {p : Str} {c : Char} {s' : Str}
    (h : containsSeq p (c :: s') = false) :
    hasPfx p (c :: s') = false ∧ containsSeq p s' = false := by
  rw [containsSeq_cons] at h
  exact ⟨by simpa using (Bool.or_eq_false_iff.mp h).1,
    by simpa using (Bool.or_eq_false_iff.mp h).2⟩

lemma containsSeq_append_left {p a : Str} (b : Str) (h : containsSeq p a = true) :
    containsSeq p (a ++ b) = true := by
  induction a with
  | nil =>
    have hp : p = [] := by
      by_contra hp
      cases p with
      | nil => exact hp rfl
      | cons x q => simp [containsSeq, findSub, hasPfx] at h
    simp [hp, containsSeq_nil_pat]
  | cons c a' ih =>
    rw [containsSeq_cons] at h
    rw [List.cons_append, containsSeq_cons]
    rcases Bool.or_eq_true_iff.mp h with hp | hc
    · simp only [Bool.or_eq_true]
      exact Or.inl (by simpa using hasPfx_mono_append b hp)
    · simp only [Bool.or_eq_true]
      exact Or.inr (ih hc)

lemma replaceAllGo_fuel {pat rep : Str} :
    ∀ (f₁ : Nat) (f₂ : Nat) (s : Str), s.length ≤ f₁ → s.length ≤ f₂ →
      replaceAllGo pat rep f₁ s = replaceAllGo pat rep f₂ s := by
  intro f₁
  induction f₁ with
  | zero =>
    intro f₂ s h1 _
    have hs : s = [] := by cases s with
      | nil => rfl
      | cons c t => simp at h1
    subst hs
    cases f₂ <;> rfl
  | succ f ih =>
    intro f₂ s h1 h2
    cases s with
    | nil => cases f₂ <;> rfl
    | cons c s' =>
      cases f₂ with
      | zero => simp at h2
      | succ g =>
        simp only [replaceAllGo]
        by_cases hq : hasPfx pat (c :: s') = true
        · simp only [hq, if_true]
          have hd : (s'.drop (pat.length - 1)).length ≤ s'.length := by
            simp [List.length_drop]
          exact congrArg (rep ++ ·)
            (ih g _ (le_trans hd (by simpa using Nat.lt_succ_iff.mp (Nat.lt_of_lt_of_le (Nat.lt_succ_self _) h1)))
              (le_trans hd (by simpa using Nat.lt_succ_iff.mp (Nat.lt_of_lt_of_le (Nat.lt_succ_self _) h2))))
        · simp only [hq, if_false]
          exact congrArg (c :: ·)
            (ih g s' (by simpa using Nat.lt_succ_iff.mp (Nat.lt_of_lt_of_le (Nat.lt_succ_self _) h1))
              (by simpa using Nat.lt_succ_iff.mp (Nat.lt_of_lt_of_le (Nat.lt_succ_self _) h2)))

lemma replaceAll_nil (pat rep : Str) : replaceAll pat rep [] = [] := by
  cases pat <;> rfl

lemma replaceAll_pos {pat : Str} (rep : Str) {s : Str} (hp : pat ≠ [])
    (h : hasPfx pat s = true) :
    replaceAll pat rep s = rep ++ replaceAll pat rep (s.drop pat.length) := by
  cases pat with
  | nil => exact absurd rfl hp
  | cons a p =>
    cases s with
    | nil => simp [hasPfx] at h
    | cons c s' =>
      show replaceAllGo (a :: p) rep (s'.length + 1) (c :: s') = _
      simp only [replaceAllGo, h, if_true]
      have hdrop : (c :: s').drop (a :: p).length = s'.drop ((a :: p).length - 1) := by
        simp
      rw [hdrop]
      rcases hx : s'.drop ((a :: p).length - 1) with _ | ⟨y, ys⟩
      · simp [replaceAll, replaceAllGo]
      · show _ = rep ++ replaceAll (a :: p) rep (y :: ys)
        show rep ++ replaceAllGo (a :: p) rep s'.length (y :: ys) = _
        have hlen : (y :: ys).length ≤ s'.length := by
          rw [← hx]; simp [List.length_drop]
        rw [replaceAllGo_fuel s'.length (y :: ys).length (y :: ys) hlen le_rfl]
        rfl

lemma replaceAll_neg {pat : Str} (rep : Str) {c : Char} {s' : Str} (hp : pat ≠ [])
    (h : hasPfx pat (c :: s') = false) :
    replaceAll pat rep (c :: s') = c :: replaceAll pat rep s' := by
  cases pat with
  | nil => exact absurd rfl hp
  | cons a p =>
    show replaceAllGo (a :: p) rep (s'.length + 1) (c :: s') = _
    simp only [replaceAllGo, h, if_false]
    cases s' with
    | nil => rfl
    | cons y ys =>
      show c :: replaceAllGo (a :: p) rep (y :: ys).length (y :: ys) = _
      rfl

lemma replaceAll_noOccur {pat rep s : Str} (h : containsSeq pat s = false) :
    replaceAll pat rep s = s := by
  have hp : pat ≠ [] := containsSeq_ne_nil h
  induction s with
  | nil => exact replaceAll_nil pat rep
  | cons c s' ih =>
    obtain ⟨h1, h2⟩ := containsSeq_cons_elim h
    rw [replaceAll_neg rep hp h1, ih h2]

end PyStr

/-! ## The reserved-marker escape round trip (C9) -/

namespace MDCleaner

lemma escapeMarker_nil : escapeMarker [] = [] := replaceAll_nil _ _

lemma escapeMarker_match {s : Str} (h : hasPfx (sl "@@") s = true) :
    escapeMarker s = USERRESERVEDTOKEN ++ escapeMarker (s.drop 2) :=
  replaceAll_pos _ (by decide) h

lemma escapeMarker_nomatch {c : Char} {s' : Str}
    (h : hasPfx (sl "@@") (c :: s') = false) :
    escapeMarker (c :: s') = c :: escapeMarker s' :=
  replaceAll_neg _ (by decide) h

lemma unescapeMarker_append_tok (w : Str) :
    unescapeMarker (USERRESERVEDTOKEN ++ w) = sl "@@" ++ unescapeMarker w := by
  have h := @replaceAll_pos USERRESERVEDTOKEN (sl "@@")
    (USERRESERVEDTOKEN ++ w) (by decide) (hasPfx_refl_append USERRESERVEDTOKEN w)
  rwa [List.drop_left] at h

lemma unescapeMarker_nomatch {c : Char} {w : Str}
    (h : hasPfx USERRESERVEDTOKEN (c :: w) = false) :
    unescapeMarker (c :: w) = c :: unescapeMarker w :=
  replaceAll_neg _ (by decide) h

/-- `USERRESERVEDTOKEN` has no non-trivial border: no proper suffix of
the sentinel is also one of its prefixes. -/
lemma sentinel_no_border :
    ∀ k < 17, 1 ≤ k → hasPfx (USERRESERVEDTOKEN.drop k) USERRESERVEDTOKEN = false := by
  decide

/-- No "fake token": whenever a proper suffix of the sentinel is a
prefix of an escaped string, it was already a prefix of the original
string — inserted sentinels cannot combine with surrounding text to
fabricate one. -/
lemma noFake (v : Str) (k : Nat) (hk1 : 1 ≤ k) (hk2 : k ≤ 17)
    (h : hasPfx (USERRESERVEDTOKEN.drop k) (escapeMarker v) = true) :
    hasPfx (USERRESERVEDTOKEN.drop k) v = true := by
  by_cases hk17 : k = 17
  · subst hk17
    have hz : USERRESERVEDTOKEN.drop 17 = [] := by decide
    rw [hz]
    cases v <;> rfl
  · have hklt : k < 17 := lt_of_le_of_ne hk2 hk17
    have hzlen : (USERRESERVEDTOKEN.drop k).length = 17 - k := by
      have hT : USERRESERVEDTOKEN.length = 17 := by decide
      simp [List.length_drop, hT]
    cases v with
    | nil =>
      rw [escapeMarker_nil] at h
      exfalso
      rcases hz : USERRESERVEDTOKEN.drop k with _ | ⟨d, z'⟩
      · have := congrArg List.length hz
        rw [hzlen] at this
        simp at this
        omega
      · rw [hz] at h
        simp [hasPfx] at h
    | cons c v' =>
      by_cases hm : hasPfx (sl "@@") (c :: v') = true
      · rw [escapeMarker_match hm] at h
        have hshort := hasPfx_of_append_short h
          (by rw [hzlen]; have : USERRESERVEDTOKEN.length = 17 := by decide
              rw [this]; omega)
        exact absurd hshort (by simp [sentinel_no_border k hklt hk1])
      · rw [escapeMarker_nomatch (by simpa using hm)] at h
        rcases hz : USERRESERVEDTOKEN.drop k with _ | ⟨d, z'⟩
        · have := congrArg List.length hz
          rw [hzlen] at this
          simp at this
          omega
        · rw [hz] at h
          rw [hasPfx_cons] at h
          have hz' : USERRESERVEDTOKEN.drop (k + 1) = z' := by
            have := congrArg List.tail hz
            simpa [List.tail_drop] using this
          have hrec := noFake v' (k + 1) (by omega) (by omega) (by rw [hz']; exact h.2)
          rw [hasPfx_cons]
          exact ⟨h.1, by rw [hz'] at hrec; exact hrec⟩
termination_by v.length

/-- The escape/un-escape pair of `prepare_markdown` line 573 and
`clean_tex` line 650 is a round trip on every string that does not
contain the sentinel text itself. -/
lemma marker_roundTrip (s : Str)
    (h : containsSeq USERRESERVEDTOKEN s = false) :
    unescapeMarker (escapeMarker s) = s := by
  cases s with
  | nil => rw [escapeMarker_nil]; exact replaceAll_nil _ _
  | cons c s' =>
    by_cases hm : hasPfx (sl "@@") (c :: s') = true
    · have hc : c = '@' := by
        have := (hasPfx_cons.mp (by simpa using hm)).1
        exact this.symm
      cases s' with
      | nil =>
        exfalso
        have := (hasPfx_cons.mp (by simpa using hm)).2
        simp [hasPfx] at this
      | cons d s₂ =>
        have hd : d = '@' := by
          have h2 := (hasPfx_cons.mp (by simpa using hm)).2
          exact ((hasPfx_cons.mp (by simpa using h2)).1).symm
        rw [escapeMarker_match hm, unescapeMarker_append_tok]
        have hsub : containsSeq USERRESERVEDTOKEN s₂ = false :=
          (containsSeq_cons_elim (containsSeq_cons_elim h).2).2
        have hrec := marker_roundTrip s₂ hsub
        have hdrop : (c :: d :: s₂).drop 2 = s₂ := rfl
        rw [hdrop, hrec, hc, hd]
        rfl
    · rw [escapeMarker_nomatch (by simpa using hm)]
      have hnem : hasPfx USERRESERVEDTOKEN (c :: escapeMarker s') = false := by
        by_contra hcon
        have hcon' : hasPfx USERRESERVEDTOKEN (c :: escapeMarker s') = true := by
          simpa using hcon
        have hcU : 'U' = c := by
          have : USERRESERVEDTOKEN = 'U' :: USERRESERVEDTOKEN.drop 1 := by decide
          rw [this] at hcon'
          exact (hasPfx_cons.mp hcon').1
        have htail : hasPfx (USERRESERVEDTOKEN.drop 1) (escapeMarker s') = true := by
          have : USERRESERVEDTOKEN = 'U' :: USERRESERVEDTOKEN.drop 1 := by decide
          rw [this] at hcon'
          exact (hasPfx_cons.mp hcon').2
        have hs' := noFake s' 1 (by omega) (by omega) htail
        have : hasPfx USERRESERVEDTOKEN (c :: s') = true := by
          have hTc : USERRESERVEDTOKEN = 'U' :: USERRESERVEDTOKEN.drop 1 := by decide
          rw [hTc, hasPfx_cons]
          exact ⟨hcU, hs'⟩
        exact absurd (containsSeq_of_hasPfx this) (by simp [h])
      rw [unescapeMarker_nomatch hnem]
      exact congrArg (c :: ·) (marker_roundTrip s' (containsSeq_cons_elim h).2)
termination_by s.length

end MDCleaner

/-! ## The escaping pass as a per-character map (C2) -/

namespace PyStr

lemma containsSeq_nil_str {p : Str} (hp : p ≠ []) : containsSeq p [] = false := by
  cases p with
  | nil => exact absurd rfl hp
  | cons a q => simp [containsSeq, findSub, hasPfx]

lemma splitOnNl_ne_nil (s : Str) : splitOnNl s ≠ [] := by
  induction s with
  | nil => simp [splitOnNl]
  | cons c s' ih =>
    by_cases hc : c = '\n'
    · subst hc; simp [splitOnNl]
    · rw [splitOnNl.eq_def]
      split
      · simp
      · simp
      · split <;> simp

lemma splitOnNl_cons_nl (s' : Str) : splitOnNl ('\n' :: s') = [] :: splitOnNl s' := rfl

lemma splitOnNl_cons_other {c : Char} (hc : c ≠ '\n') {s' : Str} {l₀ : Str}
    {ls : List Str} (hq : splitOnNl s' = l₀ :: ls) :
    splitOnNl (c :: s') = (c :: l₀) :: ls := by
  rw [splitOnNl.eq_def]
  split
  · rename_i heq
    exact absurd heq (by simp)
  · rename_i rest heq
    injection heq with h1 _
    exact absurd h1 hc
  · rename_i c' rest heq
    injection heq with h1 h2
    subst h1
    subst h2
    rw [hq]

lemma splitOnNl_head_pfx :
    ∀ (s : Str) (l₀ : Str) (ls : List Str), splitOnNl s = l₀ :: ls → ∃ t, s = l₀ ++ t := by
  intro s
  induction s with
  | nil =>
    intro l₀ ls h
    simp [splitOnNl] at h
    exact ⟨[], by simp [h.1]⟩
  | cons c s' ih =>
    intro l₀ ls h
    by_cases hc : c = '\n'
    · subst hc
      rw [splitOnNl_cons_nl] at h
      injection h with h1 _
      exact ⟨'\n' :: s', by simp [← h1]⟩
    · rcases hq : splitOnNl s' with _ | ⟨m₀, ms⟩
      · exact absurd hq (splitOnNl_ne_nil s')
      · rw [splitOnNl_cons_other hc hq] at h
        injection h with h1 _
        obtain ⟨t, ht⟩ := ih m₀ ms hq
        exact ⟨t, by rw [← h1, ht]; rfl⟩

lemma lines_noOccur (p : Str) :
    ∀ (s : Str), containsSeq p s = false →
      ∀ l ∈ splitOnNl s, containsSeq p l = false := by
  intro s
  induction s with
  | nil =>
    intro h l hl
    simp [splitOnNl] at hl
    subst hl
    exact containsSeq_nil_str (containsSeq_ne_nil h)
  | cons c s' ih =>
    intro h l hl
    by_cases hc : c = '\n'
    · subst hc
      rw [splitOnNl_cons_nl] at hl
      rcases List.mem_cons.mp hl with hl | hl
      · exact hl ▸ containsSeq_nil_str (containsSeq_ne_nil h)
      · exact ih (containsSeq_cons_elim h).2 l hl
    · rcases hq : splitOnNl s' with _ | ⟨m₀, ms⟩
      · exact absurd hq (splitOnNl_ne_nil s')
      · rw [splitOnNl_cons_other hc hq] at hl
        rcases List.mem_cons.mp hl with hl | hl
        · subst hl
          obtain ⟨t, ht⟩ := splitOnNl_head_pfx s' m₀ ms hq
          by_contra hcon
          have hcon' : containsSeq p (c :: m₀) = true := by
            simpa using hcon
          have := containsSeq_append_left t hcon'
          rw [show (c :: m₀) ++ t = c :: s' from by rw [ht]; rfl] at this
          exact absurd this (by simp [h])
        · exact ih (containsSeq_cons_elim h).2 l (hq ▸ List.mem_cons_of_mem m₀ hl)

end PyStr

namespace MDCleaner

lemma blankLineSubGo_noBlank :
    ∀ (f : Nat) (flag : Bool) (s : Str), hasBlankLine.go flag s = false →
      blankLineSubGo f flag s = s := by
  intro f
  induction f with
  | zero => intro flag s _; cases s <;> rfl
  | succ f ih =>
    intro flag s h
    cases s with
    | nil => rfl
    | cons c s' =>
      rw [hasBlankLine.go] at h
      rcases Bool.or_eq_false_iff.mp h with ⟨h1, h2⟩
      cases flag with
      | false =>
        simp only [blankLineSubGo]
        rw [ih _ _ h2]
        simp
      | true =>
        have hnone : blankLineSubGo.tryBlank (c :: s') = none := by
          cases hx : blankLineSubGo.tryBlank (c :: s') with
          | none => rfl
          | some r => rw [hx] at h1; simp at h1
        simp only [blankLineSubGo, hnone]
        rw [ih _ _ h2]
        simp

lemma blankLineSub_noBlank {s : Str} (h : hasBlankLine s = false) :
    blankLineSub s = s :=
  blankLineSubGo_noBlank s.length true s h

lemma listingMatches_noOccur {s : Str} (f : Nat)
    (h : containsSeq listingOpen s = false) : listingMatches f s = [] := by
  cases f with
  | zero => rfl
  | succ f =>
    have hnone : findSub listingOpen s = none := by
      unfold containsSeq at h
      cases hq : findSub listingOpen s with
      | none => rfl
      | some i => rw [hq] at h; simp at h
    simp [listingMatches, hnone]

lemma stashListings_noOccur {s : Str}
    (h : containsSeq listingOpen s = false) : stashListings s = (s, [], 0) := by
  unfold stashListings
  rw [listingMatches_noOccur _ h]
  rfl

lemma stashMintinline_noOccur {s : Str}
    (h : containsSeq (sl "\\mintinline") s = false) :
    stashMintinline s [] 0 = (s, [], 0) := by
  unfold stashMintinline
  have hf : (splitOnNl s).filter (containsSeq (sl "\\mintinline")) = [] := by
    rw [List.filter_eq_nil_iff]
    intro l hl
    simp [lines_noOccur _ s h l hl]
  rw [hf]
  rfl

lemma singleRep_flatMap (d : Char) (rep : Str) (s : Str) :
    replaceAll [d] rep s = s.flatMap (charRep d rep) := by
  induction s with
  | nil => rw [replaceAll_nil]; rfl
  | cons c s' ih =>
    by_cases hc : c = d
    · subst hc
      rw [replaceAll_pos rep (by simp) (by simp [hasPfx])]
      rw [List.flatMap_cons]
      have : (c :: s').drop [c].length = s' := rfl
      rw [this, ih]
      simp [charRep]
    · rw [replaceAll_neg rep (by simp)
        (by simp [hasPfx]; exact fun h => hc h.symm)]
      rw [List.flatMap_cons, ih]
      simp [charRep, hc]

lemma braceMap_comp (c : Char) :
    (charRep '{' (sl "\\\x7b") c).flatMap (charRep '}' (sl "\\\x7d")) = braceMap c := by
  by_cases h1 : c = '{'
  · subst h1; decide
  by_cases h2 : c = '}'
  · subst h2; decide
  simp [charRep, braceMap, h1, h2]

lemma backslashSubGo_fuel :
    ∀ (f₁ f₂ : Nat) (s : Str), s.length ≤ f₁ → s.length ≤ f₂ →
      backslashSubGo f₁ s = backslashSubGo f₂ s := by
  intro f₁
  induction f₁ with
  | zero =>
    intro f₂ s h1 _
    have hs : s = [] := by cases s with
      | nil => rfl
      | cons c t => simp at h1
    subst hs
    cases f₂ <;> rfl
  | succ f ih =>
    intro f₂ s h1 h2
    cases s with
    | nil => cases f₂ <;> rfl
    | cons c s' =>
      cases f₂ with
      | zero => simp at h2
      | succ g =>
        simp only [backslashSubGo]
        by_cases hbs : c = '\\'
        · simp only [hbs, if_true]
          cases s' with
          | nil => rfl
          | cons c₂ rest =>
            by_cases hbr : c₂ = '{' || c₂ = '}'
            · simp only [hbr, if_true]
              have hle1 : rest.length ≤ f := by simp at h1; omega
              have hle2 : rest.length ≤ g := by simp at h2; omega
              rw [ih g rest hle1 hle2]
            · simp only [hbr, if_false]
              have hle1 : (c₂ :: rest).length ≤ f := by simp at h1 ⊢; omega
              have hle2 : (c₂ :: rest).length ≤ g := by simp at h2 ⊢; omega
              rw [ih g (c₂ :: rest) hle1 hle2]
              simp
        · simp only [hbs, if_false]
          have hle1 : s'.length ≤ f := by simp at h1; omega
          have hle2 : s'.length ≤ g := by simp at h2; omega
          rw [ih g s' hle1 hle2]

lemma backslashSub_cons_other {c : Char} (h : c ≠ '\\') (s : Str) :
    backslashSub (c :: s) = c :: backslashSub s := by
  show backslashSubGo (s.length + 1) (c :: s) = _
  simp only [backslashSubGo]
  rw [if_neg h]
  rfl

lemma backslashSub_cons_bs_brace {c : Char} (h : (c = '{' || c = '}') = true) (s : Str) :
    backslashSub ('\\' :: c :: s) = '\\' :: c :: backslashSub s := by
  show backslashSubGo (s.length + 1 + 1) ('\\' :: c :: s) = _
  simp only [backslashSubGo, if_true]
  rw [if_pos h]
  rw [backslashSubGo_fuel (s.length + 1) s.length s (by omega) le_rfl]
  rfl

lemma backslashSub_cons_bs_other {c : Char} (h : ¬((c = '{' || c = '}') = true)) (s : Str) :
    backslashSub ('\\' :: c :: s) =
      sl "\\textbackslash\x7b\x7d" ++ backslashSub (c :: s) := by
  show backslashSubGo (s.length + 1 + 1) ('\\' :: c :: s) = _
  unfold backslashSub
  simp only [backslashSubGo, if_true, List.length_cons]
  rw [if_neg h]

lemma backslashSub_single_bs :
    backslashSub ['\\'] = sl "\\textbackslash\x7b\x7d" := by decide

/-- The image of a string under the brace map starts, when non-empty,
with a character that is not a brace (braces only ever appear escaped,
preceded by a backslash). -/
lemma braceMap_head (d : Char) (s'' : Str) :
    ∃ e w, (d :: s'').flatMap braceMap = e :: w ∧ ¬((e = '{' || e = '}') = true) := by
  rw [List.flatMap_cons]
  by_cases h1 : d = '{'
  · subst h1
    exact ⟨'\\', _, rfl, by decide⟩
  by_cases h2 : d = '}'
  · subst h2
    exact ⟨'\\', _, rfl, by decide⟩
  · rw [show braceMap d = [d] from by simp [braceMap, h1, h2]]
    exact ⟨d, _, rfl, by simp [h1, h2]⟩

/-- The backslash pass, applied to a brace-escaped string, acts as the
per-character composite `braceBackslashMap`. -/
lemma backslashSub_flatMap (s : Str) :
    backslashSub (s.flatMap braceMap) = s.flatMap braceBackslashMap := by
  induction s with
  | nil => rfl
  | cons c s' ih =>
    rw [List.flatMap_cons, List.flatMap_cons]
    by_cases h1 : c = '{'
    · subst h1
      rw [show braceMap '{' = ['\\', '{'] from by decide,
        show braceBackslashMap '{' = ['\\', '{'] from by decide]
      show backslashSub ('\\' :: '{' :: s'.flatMap braceMap) = _
      rw [backslashSub_cons_bs_brace (by decide), ih]
      rfl
    by_cases h2 : c = '}'
    · subst h2
      rw [show braceMap '}' = ['\\', '}'] from by decide,
        show braceBackslashMap '}' = ['\\', '}'] from by decide]
      show backslashSub ('\\' :: '}' :: s'.flatMap braceMap) = _
      rw [backslashSub_cons_bs_brace (by decide), ih]
      rfl
    by_cases h3 : c = '\\'
    · subst h3
      rw [show braceMap '\\' = ['\\'] from by decide,
        show braceBackslashMap '\\' = sl "\\textbackslash\x7b\x7d" from by decide]
      cases s' with
      | nil =>
        show backslashSub ['\\'] = _
        rw [backslashSub_single_bs]
        rfl
      | cons d s'' =>
        obtain ⟨e, w, heq, he⟩ := braceMap_head d s''
        rw [show (['\\'] : Str) ++ (d :: s'').flatMap braceMap =
          '\\' :: (d :: s'').flatMap braceMap from rfl]
        rw [heq, backslashSub_cons_bs_other he, ← heq, ih]
    · rw [show braceMap c = [c] from by simp [braceMap, h1, h2],
        show braceBackslashMap c = [c] from by simp [braceBackslashMap, h1, h2, h3]]
      show backslashSub (c :: s'.flatMap braceMap) = _
      rw [backslashSub_cons_other h3, ih]
      rfl

/-- A single-character replacement pass distributes over append. -/
lemma singleRep_append (d : Char) (rep a b : Str) :
    replaceAll [d] rep (a ++ b) = replaceAll [d] rep a ++ replaceAll [d] rep b := by
  rw [singleRep_flatMap, singleRep_flatMap, singleRep_flatMap, List.flatMap_append]

/-- The single-character tail distributes over append. -/
lemma escTail_append (a b : Str) : escTail (a ++ b) = escTail a ++ escTail b := by
  simp only [escTail, show sl ">" = ['>'] from rfl, show sl "#" = ['#'] from rfl,
    show sl "$" = ['$'] from rfl, show sl "%" = ['%'] from rfl,
    show sl "_" = ['_'] from rfl, show sl "&" = ['&'] from rfl,
    show sl "^" = ['^'] from rfl, singleRep_append]

/-- The single-character tail maps the image of one character under the
brace/backslash passes to its final escape. -/
lemma escTail_bb (c : Char) : escTail (braceBackslashMap c) = escFun c := by
  by_cases h1 : c = '{'
  · subst h1; decide
  by_cases h2 : c = '}'
  · subst h2; decide
  by_cases h3 : c = '\\'
  · subst h3; decide
  by_cases h4 : c = '>'
  · subst h4; decide
  by_cases h5 : c = '#'
  · subst h5; decide
  by_cases h6 : c = '$'
  · subst h6; decide
  by_cases h7 : c = '%'
  · subst h7; decide
  by_cases h8 : c = '_'
  · subst h8; decide
  by_cases h9 : c = '&'
  · subst h9; decide
  by_cases h10 : c = '^'
  · subst h10; decide
  · rw [show braceBackslashMap c = [c] from by simp [braceBackslashMap, h1, h2, h3]]
    have e : ∀ (d : Char) (rep : Str), c ≠ d → replaceAll [d] rep [c] = [c] := by
      intro d rep hne
      rw [singleRep_flatMap]
      simp [charRep, hne]
    simp only [escTail, show sl ">" = ['>'] from rfl, show sl "#" = ['#'] from rfl,
      show sl "$" = ['$'] from rfl, show sl "%" = ['%'] from rfl,
      show sl "_" = ['_'] from rfl, show sl "&" = ['&'] from rfl,
      show sl "^" = ['^'] from rfl]
    rw [e '>' _ h4, e '#' _ h5, e '$' _ h6, e '%' _ h7, e '$' _ h6, e '_' _ h8,
      e '&' _ h9, e '^' _ h10]
    simp [escFun, h1, h2, h3, h4, h5, h6, h7, h8, h9, h10]

/-- The single-character tail acts per character on brace/backslash
escaped text. -/
lemma escTail_flatMap (s : Str) :
    escTail (s.flatMap braceBackslashMap) = s.flatMap escFun := by
  induction s with
  | nil => decide
  | cons c s' ih =>
    rw [List.flatMap_cons, List.flatMap_cons, escTail_append, ih, escTail_bb]

/-- The special-character escape tail of `prepare_markdown` computes the
per-character map `escFun`, on strings free of the highlight-marker
sequences. -/
lemma escapeSpecials_flatMap (s : Str)
    (h5 : containsSeq (sl "\x7b==") s = false)
    (h6 : containsSeq (sl "==\x7d") s = false) :
    escapeSpecials s = s.flatMap escFun := by
  unfold escapeSpecials
  dsimp only
  rw [replaceAll_noOccur h5, replaceAll_noOccur h6]
  rw [show sl "\x7b" = ['{'] from rfl, show sl "\x7d" = ['}'] from rfl]
  rw [singleRep_flatMap '{' _ s, singleRep_flatMap '}' _ _, List.flatMap_assoc]
  rw [List.flatMap_congr (fun c _ => braceMap_comp c)]
  rw [backslashSub_flatMap]
  exact escTail_flatMap s

/-- `prepare_markdown` on a string free of blank lines, reserved
markers, and every shielding trigger: it is exactly the per-character
escape map, with an empty stash table. -/
lemma prepare_markdown_flatMap (s : Str)
    (hb : hasBlankLine s = false)
    (hm : containsSeq (sl "@@") s = false)
    (hl : containsSeq listingOpen s = false)
    (hmi : containsSeq (sl "\\mintinline") s = false)
    (hh1 : containsSeq (sl "\x7b==") s = false)
    (hh2 : containsSeq (sl "==\x7d") s = false) :
    prepare_markdown s = (s.flatMap escFun, []) := by
  unfold prepare_markdown
  dsimp only
  rw [blankLineSub_noBlank hb]
  rw [show escapeMarker s = s from replaceAll_noOccur hm]
  rw [stashListings_noOccur hl]
  rw [show (s, ([] : List (Str × Str)), 0).1 = s from rfl]
  rw [stashMintinline_noOccur hmi]
  rw [escapeSpecials_flatMap s hh1 hh2]

end MDCleaner

/-! ## Frontmatter frame property (C8) -/

namespace MDFrontmatter

lemma convertGo_noOccur :
    ∀ (f : Nat) (flag : Bool) (s : Str), containsSeq (sl "---") s = false →
      convertGo f flag s = s := by
  intro f
  induction f with
  | zero => intro flag s _; cases s <;> rfl
  | succ f ih =>
    intro flag s h
    cases s with
    | nil => rfl
    | cons c s' =>
      obtain ⟨h1, h2⟩ := containsSeq_cons_elim h
      simp only [convertGo, h1, Bool.and_false, Bool.false_and]
      rw [ih _ _ h2]
      simp

/-- A document in which `---` never occurs passes through the
frontmatter stripper unchanged. -/
lemma convert_noOccur {s : Str} (h : containsSeq (sl "---") s = false) :
    convert s = s :=
  convertGo_noOccur s.length true s h

end MDFrontmatter

/-! ## Header-table lemmas (C10) -/

namespace MDHeader

lemma hashMarks_succ (n : Nat) : hashMarks (n + 1) = '\\' :: '#' :: hashMarks n := rfl

lemma hashReps_hashMarks (n : Nat) (r : Str) (hr : tryHeader.hashReps r = 0) :
    tryHeader.hashReps (hashMarks n ++ r) = n := by
  induction n with
  | zero => simpa using hr
  | succ m ih =>
    rw [hashMarks_succ]
    show tryHeader.hashReps ('\\' :: '#' :: (hashMarks m ++ r)) = m + 1
    simp [tryHeader.hashReps, ih]

lemma hashMarks_mem (n : Nat) : ∀ c ∈ hashMarks n, c = '\\' ∨ c = '#' := by
  induction n with
  | zero => intro c hc; simp [hashMarks, repChunk] at hc
  | succ m ih =>
    intro c hc
    rw [hashMarks_succ] at hc
    rcases List.mem_cons.mp hc with h | hc
    · exact Or.inl h
    rcases List.mem_cons.mp hc with h | hc
    · exact Or.inr h
    · exact ih c hc

lemma header_ws (n : Nat) (hn : 1 ≤ n) (r : Str) :
    (hashMarks n ++ r).dropWhile isPySpace = hashMarks n ++ r := by
  cases n with
  | zero => omega
  | succ m =>
    rw [hashMarks_succ]
    show List.dropWhile isPySpace ('\\' :: ('#' :: hashMarks m ++ r)) = _
    rw [List.dropWhile_cons, if_neg (by decide)]
    rfl

lemma header_drop (n : Nat) (r : Str) : (hashMarks n ++ r).drop (2 * n) = r := by
  induction n with
  | zero => simp [hashMarks, repChunk]
  | succ m ih =>
    rw [hashMarks_succ]
    have h2 : 2 * (m + 1) = 2 * m + 1 + 1 := by ring
    rw [h2]
    show (('\\' :: '#' :: (hashMarks m ++ r)).drop (2 * m + 1 + 1)) = r
    rw [List.drop_succ_cons, List.drop_succ_cons]
    exact ih

lemma tryHeader_hash (k : Nat) (orMore : Bool) (n : Nat) (hn : 1 ≤ n) :
    tryHeader k orMore (hashMarks n ++ sl " Title") =
      if (if orMore then decide (k ≤ n) else decide (n = k)) = true then
        some (sl "Title", []) else none := by
  unfold tryHeader
  dsimp only
  rw [header_ws n hn, hashReps_hashMarks n _ (by decide), header_drop n]
  have hb : tryHeader.noBackslash (sl " Title") = true := rfl
  have h1n : decide (1 ≤ n) = true := by simpa using hn
  rw [hb, h1n]
  simp only [Bool.and_true]
  by_cases hc : (if orMore then decide (k ≤ n) else decide (n = k)) = true
  · rw [hc]
    simp only [if_true]
    rw [show (sl " Title").dropWhile (· = ' ') = sl "Title" from by decide]
    rw [show (sl "Title").takeWhile (· ≠ '\n') = sl "Title" from by decide]
    rw [show (sl "Title").dropWhile (· ≠ '\n') = ([] : Str) from by decide]
  · rw [Bool.not_eq_true] at hc
    rw [hc]
    simp

lemma headerSubGo_nil (k : Nat) (om : Bool) (repl : Str → Str) (f : Nat)
    (flag : Bool) : headerSubGo k om repl f flag [] = [] := by
  cases f <;> rfl

lemma headerSubGo_step_false (k : Nat) (om : Bool) (repl : Str → Str) (f : Nat)
    (c : Char) (s' : Str) :
    headerSubGo k om repl (f + 1) false (c :: s') =
      c :: headerSubGo k om repl f (decide (c = '\n')) s' := rfl

lemma headerSubGo_step_none (k : Nat) (om : Bool) (repl : Str → Str) (f : Nat)
    {c : Char} {s' : Str} (h : tryHeader k om (c :: s') = none) :
    headerSubGo k om repl (f + 1) true (c :: s') =
      c :: headerSubGo k om repl f (decide (c = '\n')) s' := by
  have unf : headerSubGo k om repl (f + 1) true (c :: s') =
      match tryHeader k om (c :: s') with
      | some (title, rem) => repl title ++ headerSubGo k om repl f false rem
      | none => c :: headerSubGo k om repl f (decide (c = '\n')) s' := rfl
  rw [unf, h]

lemma headerSubGo_step_some (k : Nat) (om : Bool) (repl : Str → Str) (f : Nat)
    {c : Char} {s' : Str} {title rem : Str}
    (h : tryHeader k om (c :: s') = some (title, rem)) :
    headerSubGo k om repl (f + 1) true (c :: s') =
      repl title ++ headerSubGo k om repl f false rem := by
  have unf : headerSubGo k om repl (f + 1) true (c :: s') =
      match tryHeader k om (c :: s') with
      | some (title, rem) => repl title ++ headerSubGo k om repl f false rem
      | none => c :: headerSubGo k om repl f (decide (c = '\n')) s' := rfl
  rw [unf, h]

lemma headerSubGo_noNl (k : Nat) (om : Bool) (repl : Str → Str) :
    ∀ (f : Nat) (s : Str), (∀ c ∈ s, c ≠ '\n') →
      headerSubGo k om repl f false s = s := by
  intro f
  induction f with
  | zero => intro s _; cases s <;> rfl
  | succ f ih =>
    intro s h
    cases s with
    | nil => rfl
    | cons c s' =>
      rw [headerSubGo_step_false]
      have hc : decide (c = '\n') = false := by
        simp [h c (List.mem_cons_self c s')]
      rw [hc, ih s' fun d hd => h d (List.mem_cons_of_mem c hd)]

lemma hash_title_noNl (m : Nat) :
    ∀ c ∈ '#' :: (hashMarks m ++ sl " Title"), c ≠ '\n' := by
  intro c hc
  rcases List.mem_cons.mp hc with h | hc
  · subst h; decide
  rcases List.mem_append.mp hc with hc | hc
  · rcases hashMarks_mem m c hc with h | h <;> (subst h; decide)
  · exact (by decide : ∀ c ∈ sl " Title", c ≠ '\n') c hc

lemma headerSub_hash_fail (k : Nat) (om : Bool) (repl : Str → Str) (n : Nat)
    (hn : 1 ≤ n)
    (hcond : (if om then decide (k ≤ n) else decide (n = k)) = false) :
    headerSub k om repl (hashMarks n ++ sl " Title") = hashMarks n ++ sl " Title" := by
  cases n with
  | zero => omega
  | succ m =>
    unfold headerSub
    rw [hashMarks_succ]
    show headerSubGo k om repl
      (('#' :: (hashMarks m ++ sl " Title")).length + 1) true
      ('\\' :: '#' :: (hashMarks m ++ sl " Title")) = _
    have hnone : tryHeader k om ('\\' :: '#' :: (hashMarks m ++ sl " Title")) = none := by
      rw [show ('\\' :: '#' :: (hashMarks m ++ sl " Title")) =
        hashMarks (m + 1) ++ sl " Title" from rfl]
      rw [tryHeader_hash k om (m + 1) (by omega), hcond]
      simp
    rw [headerSubGo_step_none k om repl _ hnone]
    rw [show (decide ('\\' = '\n')) = false from by decide]
    rw [headerSubGo_noNl k om repl _ _ (hash_title_noNl m)]
    simp

lemma headerSub_hash_ok (repl : Str → Str) (n : Nat) (hn4 : 4 ≤ n) :
    headerSub 4 true repl (hashMarks n ++ sl " Title") = repl (sl "Title") := by
  cases n with
  | zero => omega
  | succ m =>
    unfold headerSub
    rw [hashMarks_succ]
    show headerSubGo 4 true repl
      (('#' :: (hashMarks m ++ sl " Title")).length + 1) true
      ('\\' :: '#' :: (hashMarks m ++ sl " Title")) = _
    have hsome : tryHeader 4 true ('\\' :: '#' :: (hashMarks m ++ sl " Title")) =
        some (sl "Title", []) := by
      rw [show ('\\' :: '#' :: (hashMarks m ++ sl " Title")) =
        hashMarks (m + 1) ++ sl " Title" from rfl]
      rw [tryHeader_hash 4 true (m + 1) (by omega)]
      rw [show (decide (4 ≤ m + 1)) = true from by simpa using hn4]
      simp
    rw [headerSubGo_step_some 4 true repl _ hsome]
    rw [headerSubGo_nil]
    simp

end MDHeader

/-! ## List-nesting balance (C4) -/

namespace MDList

lemma buildNested_balance (bc ec ic : Str) (prep : Str → Str) :
    ∀ (items : List (Str × Nat)) (prev : Nat),
      (buildNested bc ec ic prep prev items).2.1 + prev =
        (buildNested bc ec ic prep prev items).2.2 := by
  intro items
  induction items with
  | nil => intro prev; simp [buildNested]
  | cons it rest ih =>
    intro prev
    obtain ⟨t, l⟩ := it
    have ihl := ih l
    simp only [buildNested]
    rcases hx : buildNested bc ec ic prep l rest with ⟨s, b, e⟩
    rw [hx] at ihl
    simp only at ihl
    by_cases h1 : prev < l
    · simp only [hx, h1, if_true]
      omega
    · by_cases h2 : l < prev
      · simp only [hx, h1, if_false, h2, if_true]
        omega
      · simp only [hx, h1, if_false, h2]
        omega

end MDList

/-! ## Claim theorems -/

/-- C1: the claim says `convert(data, unnumbered, document_class,
minted_language, override_language)` is a total pure function that
completes the whole stage sequence and never raises.  In fact every
invocation raises `TypeError`: `md2tex.py` line 157 calls
`MDQuote.inline_quote(data)` without the required positional argument
`french_quote` (`converters.py` line 136 gives it no default), so the
pipeline never gets past the quote stage, for any input and any
combination of options. -/
theorem convert_always_raises_typeerror (data : Str) (unnumbered : Bool)
    (document_class minted_language : Str) (override_language : Bool) :
    convert data unnumbered document_class minted_language override_language =
      Except.error PyErr.typeError := rfl

/-- C2 (counterexample): on a string containing each of the eleven
special characters exactly once and no code or math spans, the escaping
pass does not produce the documented escape of every special character:
the output differs from the spec's per-character escape map (the tilde
survives unescaped, and the dollar becomes `\\\&` through the duplicated
replacement of `converters.py` line 620). -/
theorem escape_spec_counterexample :
    (MDCleaner.prepare_markdown (sl "a{b}c\\d>e#f$g%h~i_j&k^l")).1 ≠
      (sl "a{b}c\\d>e#f$g%h~i_j&k^l").flatMap MDCleaner.specEscapeChar ∧
    (MDCleaner.prepare_markdown (sl "a{b}c\\d>e#f$g%h~i_j&k^l")).1 =
      sl "a\\\x7bb\\\x7dc\\textbackslash\x7b\x7dd\\textgreater\x7b\x7de\\#f\\\\\\&g\\%h~i\\_j\\&k\\^l" :=
  ⟨by decide, by decide⟩

/-- C2 (amended): on any input free of whitespace-only lines, of the
reserved marker `@@`, and of the shielding triggers (`\begin{listing}`,
`\mintinline`, `{==`, `==}`), `MDCleaner.prepare_markdown` acts as the
per-character map `escFun` — brace pair, backslash, angle bracket, hash,
percent, underscore, ampersand and caret receive their documented
escapes, while `~` is left unchanged and `$` becomes `\\\&` — and
returns an empty stash table; nothing else in the string is changed. -/
theorem escape_amended (s : Str)
    (hb : MDCleaner.hasBlankLine s = false)
    (hm : containsSeq (sl "@@") s = false)
    (hl : containsSeq MDCleaner.listingOpen s = false)
    (hmi : containsSeq (sl "\\mintinline") s = false)
    (hh1 : containsSeq (sl "\x7b==") s = false)
    (hh2 : containsSeq (sl "==\x7d") s = false) :
    MDCleaner.prepare_markdown s = (s.flatMap MDCleaner.escFun, []) :=
  MDCleaner.prepare_markdown_flatMap s hb hm hl hmi hh1 hh2

/-- C2 (witness): the amended statement, instantiated on a concrete
string containing each special character exactly once. -/
theorem escape_amended_witness :
    MDCleaner.prepare_markdown (sl "a{b}c\\d>e#f$g%h~i_j&k^l") =
      ((sl "a{b}c\\d>e#f$g%h~i_j&k^l").flatMap MDCleaner.escFun, []) :=
  escape_amended (sl "a{b}c\\d>e#f$g%h~i_j&k^l") (by decide) (by decide)
    (by decide) (by decide) (by decide) (by decide)

/-- C3: the claim says the verbatim body of a fenced block survives
block conversion (`MDCode.block_code`), shielding
(`MDCleaner.prepare_markdown`) and reinjection (`MDCleaner.clean_tex`)
byte-identically.  It does not: for the body `"a\n \nb"` (which contains
a whitespace-only line and no closing fence), the blank-line
normalization of `prepare_markdown` runs *before* the listing is
stashed and the newline collapsing of `clean_tex` runs *after* it is
reinjected, so the body comes out as `"a\n\nb"` — the original body does
not even occur in the output. -/
theorem codeShield_roundtrip_fails :
    codeShieldPipeline (sl "```\na\n \nb\n```") =
      sl "\n\n\\begin\x7blisting\x7d[H]\n\\begin\x7bminted\x7d\x7btext\x7d\na\n\nb\n\\end\x7bminted\x7d\n\\end\x7blisting\x7d" ∧
    containsSeq (sl "a\n \nb") (codeShieldPipeline (sl "```\na\n \nb\n```")) = false :=
  ⟨by decide, by decide⟩

/-- C4: the nesting loops of `MDList.unordered_l` and `MDList.ordered_l`
emit balanced environments: over every sequence of (item text, nesting
level) pairs, the number of emitted `\begin{...}` openers equals the
number of emitted `\end{...}` closers (the final close-out run
included), so zero nested environments remain open at the start and at
the end of the generated block. -/
theorem list_nesting_balanced (items : List (Str × Nat)) :
    (MDList.unorderedItems items).2.1 = (MDList.unorderedItems items).2.2 ∧
    (MDList.orderedItems items).2.1 = (MDList.orderedItems items).2.2 := by
  constructor
  · have h := MDList.buildNested_balance
      (sl "\\begin\x7bitemize\x7d \n \\item ") (sl "\\end\x7bitemize\x7d\n")
      (sl "\\item ") id items 0
    simpa [MDList.unorderedItems] using h
  · have h := MDList.buildNested_balance
      (sl "\\begin\x7benumerate\x7d \n \\item ") (sl "\\end\x7benumerate\x7d\n")
      (sl "\\item ") MDList.stripNumbering items 0
    simpa [MDList.orderedItems] using h

/-- C5: footnote resolution on the escape-stage form of the pointers
(`^` reaches `MDReference.footnote` escaped as `\^`): a pointer with a
non-empty definition becomes an inline `\footnote{...}` carrying the
body, the definition line is removed and no bracket syntax remains; a
pointer with no definition is deleted silently, with no footnote
construct and no warning; a definition with no pointer is likewise
deleted silently. -/
theorem footnote_resolution :
    MDReference.footnote (sl "text[\\^1]\n\n[\\^1]: note") =
      sl "text\\footnote\x7bnote\x7d\n\n" ∧
    containsSeq (sl "[") (MDReference.footnote (sl "text[\\^1]\n\n[\\^1]: note")) = false ∧
    MDReference.footnote (sl "text[\\^2]") = sl "text" ∧
    MDReference.footnote (sl "[\\^3]: orphan\n") = sl "" :=
  ⟨by decide, by decide, by decide, by decide⟩

/-- C6: citation mapping of `MDReference.citation` on the five
documented forms (the single-citation renderings carry the leading
space the source concatenates before `\parencite`): plain key, single
page locator, page-range locator, suppressed-author star, and the
multi-key form with sigils stripped and no locator. -/
theorem citation_mapping :
    MDReference.citation (sl "[@doe1999]") =
      Except.ok (sl " \\parencite\x7bdoe1999\x7d") ∧
    MDReference.citation (sl "[@doe1999, 30]") =
      Except.ok (sl " \\parencite[p. 30]\x7bdoe1999\x7d") ∧
    MDReference.citation (sl "[@doe1999, 30-35]") =
      Except.ok (sl " \\parencite[pp. 30-35]\x7bdoe1999\x7d") ∧
    MDReference.citation (sl "[-@doe1999]") =
      Except.ok (sl " \\parencite*\x7bdoe1999\x7d") ∧
    MDReference.citation (sl "[@doe1999; @smith]") =
      Except.ok (sl "\\parencite\x7bdoe1999, smith\x7d") :=
  ⟨rfl, rfl, rfl, rfl, rfl⟩

/-- C7: the claim says `MDMedia.image` converts an attribute-less image
to a figure at the default width 0.85 and a `width=50%` image to one at
0.50.  Neither happens: the attribute group of the source regex is not
optional and expects quote-converted text (` ``50\%" `) that the
pipeline only produces *after* the image stage runs, so both the
attribute-less form and the `width=50%` form (in their escape-stage
shapes) are returned unchanged — no figure is ever emitted. -/
theorem image_conversion_never_fires :
    MDMedia.image (sl "![alt](path.jpg)") = sl "![alt](path.jpg)" ∧
    MDMedia.image (sl "![alt](path.jpg)\\\x7b width=50\\% \\\x7d") =
      sl "![alt](path.jpg)\\\x7b width=50\\% \\\x7d" :=
  ⟨by decide, by decide⟩

/-- C8 (counterexample): a document with no leading metadata block is
*not* left unchanged by `MDFrontmatter.convert` when `---` lines occur
later in its body: the greedy MULTILINE+DOTALL pattern `^---.*---`
deletes everything from the first line starting with `---` through the
last `---` of the document. -/
theorem frontmatter_nonleading_counterexample :
    MDFrontmatter.convert (sl "hello\n---\nworld\n---\nbye") = sl "hello\n\nbye" ∧
    sl "hello\n\nbye" ≠ sl "hello\n---\nworld\n---\nbye" :=
  ⟨by decide, by decide⟩

/-- C8 (amended): `MDFrontmatter.convert` leaves unchanged every
document in which `---` never occurs; when a line starts with `---` and
another `---` occurs later, it deletes the whole span from that line
through the last `---` of the document — which is the leading metadata
block exactly when no `---` appears after it. -/
theorem frontmatter_amended :
    (∀ s : Str, containsSeq (sl "---") s = false → MDFrontmatter.convert s = s) ∧
    MDFrontmatter.convert (sl "---\ntitle: x\n---\nbody") = sl "\nbody" :=
  ⟨fun _ h => MDFrontmatter.convert_noOccur h, by decide⟩

/-- C8 (witness): the amended frame property at a concrete document. -/
theorem frontmatter_amended_witness :
    MDFrontmatter.convert (sl "plain text\nno dashes") = sl "plain text\nno dashes" :=
  frontmatter_amended.1 (sl "plain text\nno dashes") (by decide)

/-- C9 (counterexample): the escape/un-escape pair for the reserved
marker is *not* a round trip on every input: a user string containing
the internal sentinel text literally is rewritten — the un-escape step
turns it into `@@`. -/
theorem marker_escape_counterexample :
    MDCleaner.unescapeMarker (MDCleaner.escapeMarker (sl "USERRESERVEDTOKEN")) =
      sl "@@" ∧
    sl "@@" ≠ sl "USERRESERVEDTOKEN" :=
  ⟨by decide, by decide⟩

/-- C9 (amended): for every input string that does not contain the
sentinel text `USERRESERVEDTOKEN`, escaping the reserved marker `@@` in
`prepare_markdown` and un-escaping it in `clean_tex` is a round trip:
exactly the original occurrences of `@@` reappear, none lost or
duplicated, and no other character is rewritten by the two steps. -/
theorem marker_roundtrip_amended (s : Str)
    (h : containsSeq USERRESERVEDTOKEN s = false) :
    MDCleaner.unescapeMarker (MDCleaner.escapeMarker s) = s :=
  MDCleaner.marker_roundTrip s h

/-- C9 (witness): the round trip at a concrete string containing the
marker. -/
theorem marker_roundtrip_amended_witness :
    MDCleaner.unescapeMarker (MDCleaner.escapeMarker (sl "a@@b@c@@")) =
      sl "a@@b@c@@" :=
  marker_roundtrip_amended (sl "a@@b@c@@") (by decide)

/-- C10: under the numbered/article configuration, a heading line with a
single leading marker becomes a `\section{...}` command carrying the
heading text, and a heading line with `n ≥ 4` leading markers becomes
the bolded-paragraph fallback for every such `n` (headers reach
`MDHeader.convert` with their markers escaped to `\#`). -/
theorem header_mapping_article_numbered :
    MDHeader.convert (MDHeader.hashMarks 1 ++ sl " Title") false (sl "article") =
      sl "\\section\x7bTitle\x7d\n" ∧
    ∀ n : Nat, 4 ≤ n →
      MDHeader.convert (MDHeader.hashMarks n ++ sl " Title") false (sl "article") =
        sl "\n\n\\noindent\x7b\x7d\\textbf\x7bTitle\x7d\n\n" := by
  constructor
  · decide
  · intro n hn
    unfold MDHeader.convert
    dsimp only
    rw [if_neg (by simp), if_pos rfl]
    unfold MDHeader.article_numbered
    simp only [List.foldl_cons, List.foldl_nil]
    rw [MDHeader.headerSub_hash_fail 1 false _ n (by omega) (by simp; omega)]
    rw [MDHeader.headerSub_hash_fail 2 false _ n (by omega) (by simp; omega)]
    rw [MDHeader.headerSub_hash_fail 3 false _ n (by omega) (by simp; omega)]
    rw [MDHeader.headerSub_hash_ok _ n hn]
    decide

/-- C10 (witness): the universal fallback clause at a concrete marker
count of five. -/
theorem header_mapping_article_numbered_witness :
    MDHeader.convert (MDHeader.hashMarks 5 ++ sl " Title") false (sl "article") =
      sl "\n\n\\noindent\x7b\x7d\\textbf\x7bTitle\x7d\n\n" :=
  header_mapping_article_numbered.2 5 (by decide)
